import Mathlib

/-!
# Verification of the fragrantica-scraper crawl core

A shallow embedding of the crawl-orchestration core of the
`fragrantica-scraper` repository (`src/fragrantica_scraper/crawler.py`,
`network.py`, `parsing.py`, `storage.py`, `src/main.py`) together with
theorems settling the testable properties stated in the specification.

Modelling conventions:
* Python machine floats used for delays are modelled as rationals (`ℚ`);
  every sleep whose duration is drawn from a random interval is modelled
  by the pair `(min, max)` of that interval, and a deterministic sleep by
  the degenerate pair `(d, d)`.
* Regular-expression internals are site-specific and outside the spec
  (spec §1); a text is therefore modelled by the outcome of the exact
  queries the code applies to it (first match, all matches, substring
  containment), in document order, with capture groups already
  whitespace-normalised exactly as `clean_space` would leave them.
* Sets kept as Python `set` objects are modelled as `List` with membership
  (insertion order is irrelevant for the properties proved).
-/

namespace FragScraper

/-! ## Extraction pipeline (`parsing.py`) -/

/-- One text searched by `parse_category_and_sex` (a meta-description
content string, the text of one block element, or the whole page text).
The fields record the results of the three queries the code performs on
a text:
* `hasFragranceFor`: whether the literal substring `"fragrance for"`
  occurs in the lower-cased text (the tier-2 guard),
* `full`: all matches of `CATEGORY_SEX_RE` in document order, as
  (category, audience) capture pairs (so `re.search` is `full.head?` and
  `re.findall` is `full` itself),
* `sexOnly`: the first match of `SEX_ONLY_RE`, if any. -/
structure TText where
  hasFragranceFor : Bool
  full : List (String × String)
  sexOnly : Option String
  deriving DecidableEq

/-- The category+audience match a single text contributes under the
`re.search` discipline of tiers 1 and 2 of `parse_category_and_sex`:
the *first* `CATEGORY_SEX_RE` match, accepted only when its category
passes the 80-character sanity bound (`parsing.py` lines 119-121,
132-136). -/
def acceptFull (t : TText) : Option (String × String) :=
  match t.full.head? with
  | some (c, s) => if c.length ≤ 80 then some (c, s) else none
  | none => none

/-- `if sex_fallback is None: m2 = SEX_ONLY_RE.search(text) ...`
(`parsing.py` lines 122-125, 137-140, 148-151). -/
def updFallback (fb : Option String) (t : TText) : Option String :=
  match fb with
  | some s => some s
  | none => t.sexOnly

/-- Tier 1 of `parse_category_and_sex` (`parsing.py` lines 111-125): walk
the meta-description texts; return on the first text whose first full
match passes the length bound, otherwise remember the first sex-only
match seen. Returns (full match found, sex fallback accumulated). -/
def metaLoop : List TText → Option String → Option (String × String) × Option String
  | [], fb => (none, fb)
  | t :: ts, fb =>
    match t.full.head? with
    | some (c, s) =>
      if c.length ≤ 80 then (some (c, s), fb)
      else metaLoop ts (updFallback fb t)
    | none => metaLoop ts (updFallback fb t)

/-- Tier 2 of `parse_category_and_sex` (`parsing.py` lines 128-140): like
tier 1 over the block-element texts, but a text is skipped entirely
(including its sex-only match) unless `"fragrance for"` occurs in its
lower-cased form. -/
def blockLoop : List TText → Option String → Option (String × String) × Option String
  | [], fb => (none, fb)
  | t :: ts, fb =>
    if t.hasFragranceFor then
      match t.full.head? with
      | some (c, s) =>
        if c.length ≤ 80 then (some (c, s), fb)
        else blockLoop ts (updFallback fb t)
      | none => blockLoop ts (updFallback fb t)
    else blockLoop ts fb

/-- Tier 3 of `parse_category_and_sex` (`parsing.py` lines 143-147):
`re.findall` over the full page text, returning the first match whose
category passes the length bound. -/
def pageAccepted (t : TText) : Option (String × String) :=
  t.full.find? (fun p => p.1.length ≤ 80)

/-- `parse_category_and_sex` (`parsing.py` lines 86-156) over the three
tiers of a document: meta-description texts, block-element texts, full
page text. Returns `(category, sex)`. -/
def parse_category_and_sex (metas blocks : List TText) (page : TText) :
    Option String × Option String :=
  match metaLoop metas none with
  | (some (c, s), _) => (some c, some s)
  | (none, fb1) =>
    match blockLoop blocks fb1 with
    | (some (c, s), _) => (some c, some s)
    | (none, fb2) =>
      match pageAccepted page with
      | some (c, s) => (some c, some s)
      | none => (none, updFallback fb2 page)

/-- `parse_rating_votes_from_text` (`parsing.py` lines 56-62): the
argument is the result of `RATING_VOTES_RE.search` on the page text with
group 1 parsed as a decimal and group 2 (commas removed) as an integer;
no match leaves both fields empty. -/
def parse_rating_votes_from_text (m : Option (ℚ × ℕ)) : Option ℚ × Option ℕ :=
  match m with
  | none => (none, none)
  | some (r, v) => (some r, some v)

/-- A fetched perfume detail document, as seen by `scrape_perfume_page`:
the results of the sub-parsers that query the DOM (their regex/DOM
internals are outside the specified core, spec §1). -/
structure PerfumeDoc where
  /-- `RATING_VOTES_RE.search(page_text)` with both groups parsed. -/
  ratingVotes : Option (ℚ × ℕ)
  /-- result of `parse_brand_from_page` (Designer-label search). -/
  pageBrand : Option String
  /-- result of `parse_name_from_page` (h1/h2 or og:title, cleaned). -/
  pageName : Option String
  /-- tier-1 texts for `parse_category_and_sex`. -/
  metaDescs : List TText
  /-- tier-2 texts for `parse_category_and_sex`. -/
  blocks : List TText
  /-- tier-3 text for `parse_category_and_sex`. -/
  pageText : TText
  deriving DecidableEq

/-- A structured record as assembled by `scrape_perfume_page`. -/
structure PageData where
  brand : Option String
  name : Option String
  rating : Option ℚ
  votes : Option ℕ
  sex : String
  category : String
  deriving DecidableEq

/-- `brand = clean_space(brand or ""); return brand or None`
(`parsing.py` lines 174-182): fall back to the URL-derived value, then
turn an empty result into `None`. -/
def fieldWithFallback (page urlv : Option String) : Option String :=
  match page with
  | some s => if s = "" then none else some s
  | none =>
    match urlv with
    | some s => if s = "" then none else some s
    | none => none

/-- `scrape_perfume_page` (`parsing.py` lines 159-187). `urlBrand` and
`urlName` are the results of `parse_brand_name_from_url` on the page
URL. -/
def scrape_perfume_page (urlBrand urlName : Option String) (doc : PerfumeDoc) :
    PageData :=
  let rv := parse_rating_votes_from_text doc.ratingVotes
  let cs := parse_category_and_sex doc.metaDescs doc.blocks doc.pageText
  { brand := fieldWithFallback doc.pageBrand urlBrand
    name := fieldWithFallback doc.pageName urlName
    rating := rv.1
    votes := rv.2
    sex := (cs.2).getD ""
    category := (cs.1).getD "" }

/-! ## URL normalization (`network.py`) -/

/-- `DOMAIN` (`config.py` line 12). -/
def DOMAIN : String := "www.fragrantica.com"

/-- The six components of Python `urllib.parse.urlparse`; `urlunparse`
is the inverse, so a canonical form is represented by the component
record itself. -/
structure PyUrl where
  scheme : String
  netloc : String
  path : String
  params : String
  query : String
  fragment : String
  deriving DecidableEq

/-- Python `str.lower()` as it applies to host names, character by
character (hosts are ASCII, where `str.lower` and per-character
lowering agree). -/
def strLower (s : String) : String := String.mk (s.data.map Char.toLower)

/-- Python `str.startswith`, character by character. -/
def chStartsWith (s p : String) : Bool := p.data.isPrefixOf s.data

/-- `normalize_url` (`network.py` lines 156-168): reject scheme-less
URLs, replace a netloc whose lower-cased form starts with
`"fragrantica.com"` by `DOMAIN`, and strip the fragment. -/
def normalize_url (u : PyUrl) : Option PyUrl :=
  if u.scheme = "" then none
  else
    let u := if chStartsWith (strLower u.netloc) "fragrantica.com" then
      { u with netloc := DOMAIN } else u
    some { u with fragment := "" }

/-! ## Identity provider: proxy selection (`crawler.py` `get_next_proxy`) -/

/-- State captured by the `get_next_proxy` closure (`crawler.py` lines
493-516 and the identical copy at lines 121-142): the configured proxy
list, the round-robin cursor `proxy_index`, and the per-proxy failure
map `proxy_failures` (`.get(c, 0)` semantics). Python initialises
`proxy_index = -1`; since the cursor is only ever read after a
`(proxy_index + 1) % len` step, the initial `-1` is represented by
`len - 1`, which steps to the same first candidate `0`. -/
structure ProxyState where
  proxies : List String
  proxyIndex : ℕ
  failures : String → ℕ

/-- The `while attempts < max_attempts` scan inside `get_next_proxy`
(`crawler.py` lines 503-511): advance the cursor round-robin and return
the first candidate with fewer than 3 recorded failures, giving up after
`fuel` examinations. Returns the found proxy (if any) and the final
cursor. -/
def findProxyLoop (ps : List String) (fail : String → ℕ) :
    ℕ → ℕ → Option String × ℕ
  | 0, idx => (none, idx)
  | fuel + 1, idx =>
    let idx' := (idx + 1) % ps.length
    let c := ps.getD idx' ""
    if fail c < 3 then (some c, idx')
    else findProxyLoop ps fail fuel idx'

/-- `get_next_proxy` (`crawler.py` lines 498-516): `None` without
proxies; otherwise scan at most `2 * len(proxies)` candidates; on
exhaustion clear all failure counters, advance the cursor once more and
return that proxy unconditionally. -/
def get_next_proxy (s : ProxyState) : Option String × ProxyState :=
  if s.proxies.length = 0 then (none, s)
  else
    match findProxyLoop s.proxies s.failures (2 * s.proxies.length) s.proxyIndex with
    | (some c, i) => (some c, { s with proxyIndex := i })
    | (none, i) =>
      let i' := (i + 1) % s.proxies.length
      (some (s.proxies.getD i' ""),
       { s with failures := fun _ => 0, proxyIndex := i' })

/-! ## Fetch engine: retry/backoff (`crawler.py` lines 620-730, `network.py`) -/

/-- Outcome of one `session.get` call inside the frontier crawl retry
loop, as classified by `crawler.py` lines 640-726. `serverErr` carries
the `Retry-After` header when present and numeric. -/
inductive COutcome where
  /-- HTTP 200 with `text/html` content type. -/
  | ok : COutcome
  /-- HTTP 429 or 403. -/
  | rateLimited : COutcome
  /-- HTTP 500/502/503/504 (`RETRY_STATUSES`); the optional numeric
  `Retry-After` header value. -/
  | serverErr : Option ℚ → COutcome
  /-- any other status, or wrong content type (terminal skip). -/
  | otherStatus : COutcome
  /-- `requests.exceptions.ProxyError`. -/
  | proxyErr : COutcome
  /-- `requests.exceptions.Timeout` / `ConnectionError`. -/
  | connErr : COutcome
  /-- any other `requests.RequestException`. -/
  | reqExc : COutcome
  deriving DecidableEq

/-- `backoff_sleep` (`network.py` lines 237-255) as the interval of
possible sleep durations: a numeric `Retry-After` sleeps exactly
`max(retry_after, base_delay)`; otherwise `polite_sleep` draws uniformly
from `[base·2^(attempt-1), base·2^(attempt-1) + 1.5]`. -/
def backoff_sleep_range (retryAfter : Option ℚ) (base : ℚ) (attempt : ℕ) : ℚ × ℚ :=
  match retryAfter with
  | some ra => (max ra base, max ra base)
  | none => (base * 2 ^ (attempt - 1), base * 2 ^ (attempt - 1) + 3 / 2)

/-- The deterministic 429/403 backoff of the frontier crawl loop,
`time.sleep(5 * (2 ** (attempt - 1)))` (`crawler.py` line 699). Note it
is applied whether or not a proxy pool exists. -/
def crawlRateLimitSleep (attempt : ℕ) : ℚ := 5 * 2 ^ (attempt - 1)

/-- The deterministic transport-error backoff of the crawl loops,
`time.sleep(2 * attempt)` (`crawler.py` lines 653, 669, 318, 334). -/
def transportSleep (attempt : ℕ) : ℚ := 2 * attempt

/-- `MAX_RETRIES` (`crawler.py` line 621). -/
def MAX_RETRIES : ℕ := 3

/-- State of the `while True` retry loop of the frontier crawl
(`crawler.py` lines 620-726). `fetches` counts `session.get` calls
(ghost), `sleeps` logs the interval of every backoff sleep performed
(ghost). -/
structure FLoop where
  attempt : ℕ
  fetches : ℕ
  finished : Bool
  succeeded : Bool
  sleeps : List (ℚ × ℚ)
  deriving DecidableEq

/-- Initial retry-loop state (`attempt = 1`, nothing fetched). -/
def floopInit : FLoop :=
  { attempt := 1, fetches := 0, finished := false, succeeded := false, sleeps := [] }

/-- One iteration of the frontier-crawl retry loop (`crawler.py` lines
626-726). `outcomes k` is the classified result of the (k+1)-th
`session.get` call; `hasProxies` is `bool(proxies)`; `base` is
`args.delay_seconds`. Once a break is hit the state is frozen.
* `ProxyError` / connection errors retry (sleeping `2·attempt`) only
  when attempts remain *and* a proxy pool exists (lines 649-657, 666-673);
* other request exceptions retry through `backoff_sleep(resp=None, ...)`
  (lines 675-683);
* 429/403 retries sleep `5·2^(attempt-1)` regardless of the pool
  (lines 688-704);
* retryable 5xx retries go through `backoff_sleep(resp, ...)` honouring
  `Retry-After` (lines 706-714);
* other statuses and wrong content types break (lines 715-718);
* 200 succeeds (lines 720-726). -/
def fstep (hasProxies : Bool) (base : ℚ) (outcomes : ℕ → COutcome) (s : FLoop) :
    FLoop :=
  if s.finished then s
  else
    let o := outcomes s.fetches
    let s := { s with fetches := s.fetches + 1 }
    match o with
    | .ok => { s with finished := true, succeeded := true }
    | .otherStatus => { s with finished := true }
    | .rateLimited =>
      if s.attempt < MAX_RETRIES then
        { s with attempt := s.attempt + 1,
                 sleeps := s.sleeps ++
                   [(crawlRateLimitSleep s.attempt, crawlRateLimitSleep s.attempt)] }
      else { s with finished := true }
    | .serverErr ra =>
      if s.attempt < MAX_RETRIES then
        { s with attempt := s.attempt + 1,
                 sleeps := s.sleeps ++ [backoff_sleep_range ra base s.attempt] }
      else { s with finished := true }
    | .proxyErr =>
      if s.attempt < MAX_RETRIES then
        if hasProxies then
          { s with attempt := s.attempt + 1,
                   sleeps := s.sleeps ++ [(transportSleep s.attempt, transportSleep s.attempt)] }
        else { s with finished := true }
      else { s with finished := true }
    | .connErr =>
      if s.attempt < MAX_RETRIES then
        if hasProxies then
          { s with attempt := s.attempt + 1,
                   sleeps := s.sleeps ++ [(transportSleep s.attempt, transportSleep s.attempt)] }
        else { s with finished := true }
      else { s with finished := true }
    | .reqExc =>
      if s.attempt < MAX_RETRIES then
        { s with attempt := s.attempt + 1,
                 sleeps := s.sleeps ++ [backoff_sleep_range none base s.attempt] }
      else { s with finished := true }

/-- `n` iterations of the retry loop. The Python loop iterates until a
break; iterating an arbitrary `n` times (the state freezes at a break)
covers every possible execution. -/
def frun (hasProxies : Bool) (base : ℚ) (outcomes : ℕ → COutcome) : ℕ → FLoop
  | 0 => floopInit
  | n + 1 => fstep hasProxies base outcomes (frun hasProxies base outcomes n)

/-- The deterministic catch-all exception backoff of the brand-scrape
retry loop, `time.sleep(5 * attempt)` (`crawler.py` line 342). -/
def simpleOtherExcSleep (attempt : ℕ) : ℚ := 5 * attempt

/-- The deterministic no-pool 429/403 backoff of the brand-scrape retry
loop, `time.sleep(30 * (2 ** (attempt - 1)))` (`crawler.py` line 282). -/
def noPoolRateLimitSleep (attempt : ℕ) : ℚ := 30 * 2 ^ (attempt - 1)

/-- One iteration of the brand-scrape retry loop of
`_scrape_brand_simple` (`crawler.py` lines 252-344, a
`for attempt in range(1, max_retries + 1)` with `max_retries = 3`).
Differences from the frontier loop `fstep`:
* 429/403 with a pool: rotate and sleep `5·2^(attempt-1)` (lines
  261-279); without a pool: sleep `30·2^(attempt-1)` (lines 280-285);
  at the last attempt give up (lines 286-288);
* any other non-200 status (5xx included) breaks immediately with no
  retry and no `Retry-After` handling (lines 290-292), so `serverErr`
  is terminal here;
* `ProxyError` and connection errors retry (sleeping `2·attempt`) only
  with a pool (lines 302-336);
* any other exception retries sleeping `5·attempt` (lines 338-344). -/
def sfstep (hasProxies : Bool) (outcomes : ℕ → COutcome) (s : FLoop) : FLoop :=
  if s.finished then s
  else
    let o := outcomes s.fetches
    let s := { s with fetches := s.fetches + 1 }
    match o with
    | .ok => { s with finished := true, succeeded := true }
    | .otherStatus => { s with finished := true }
    | .serverErr _ => { s with finished := true }
    | .rateLimited =>
      if s.attempt < MAX_RETRIES then
        if hasProxies then
          { s with attempt := s.attempt + 1,
                   sleeps := s.sleeps ++
                     [(crawlRateLimitSleep s.attempt, crawlRateLimitSleep s.attempt)] }
        else
          { s with attempt := s.attempt + 1,
                   sleeps := s.sleeps ++
                     [(noPoolRateLimitSleep s.attempt, noPoolRateLimitSleep s.attempt)] }
      else { s with finished := true }
    | .proxyErr =>
      if s.attempt < MAX_RETRIES then
        if hasProxies then
          { s with attempt := s.attempt + 1,
                   sleeps := s.sleeps ++
                     [(transportSleep s.attempt, transportSleep s.attempt)] }
        else { s with finished := true }
      else { s with finished := true }
    | .connErr =>
      if s.attempt < MAX_RETRIES then
        if hasProxies then
          { s with attempt := s.attempt + 1,
                   sleeps := s.sleeps ++
                     [(transportSleep s.attempt, transportSleep s.attempt)] }
        else { s with finished := true }
      else { s with finished := true }
    | .reqExc =>
      if s.attempt < MAX_RETRIES then
        { s with attempt := s.attempt + 1,
                 sleeps := s.sleeps ++
                   [(simpleOtherExcSleep s.attempt, simpleOtherExcSleep s.attempt)] }
      else { s with finished := true }

/-- Iterated brand-scrape retry loop; as with `frun`, iterating any
number of steps (the state freezes at a break) covers every execution
of the bounded `for` loop. -/
def sfrun (hasProxies : Bool) (outcomes : ℕ → COutcome) : ℕ → FLoop
  | 0 => floopInit
  | n + 1 => sfstep hasProxies outcomes (sfrun hasProxies outcomes n)

/-! ## The 429/403 handler branches (claim C3) -/

/-- What a single 429/403 handling step does: the backoff slept, whether
the identity was rotated, whether a failure was recorded against the
active proxy, and whether the URL was given up. -/
structure RLRes where
  sleep : ℚ
  rotated : Bool
  recordedFailure : Bool
  gaveUp : Bool
  deriving DecidableEq

/-- The 429/403 branch of the frontier crawl loop (`crawler.py` lines
688-704): with attempts remaining, record a failure when a proxy is
active, rotate only when a pool exists, and sleep `5·2^(attempt-1)`
in either case; otherwise give up. -/
def crawl429Branch (hasProxies hasCurrentProxy : Bool) (attempt : ℕ) : RLRes :=
  if attempt < MAX_RETRIES then
    { sleep := crawlRateLimitSleep attempt
      rotated := hasProxies
      recordedFailure := hasCurrentProxy
      gaveUp := false }
  else
    { sleep := 0, rotated := false, recordedFailure := false, gaveUp := true }

/-- The 429/403 branch of `_scrape_brand_simple` (`crawler.py` lines
260-288): with attempts remaining and a proxy pool, record a failure
when a proxy is active, rotate and sleep `5·2^(attempt-1)`; with
attempts remaining but no pool, sleep `30·2^(attempt-1)` without
rotating or recording; otherwise give up. -/
def simple429Branch (hasProxies hasCurrentProxy : Bool) (attempt : ℕ) : RLRes :=
  if attempt < MAX_RETRIES ∧ hasProxies then
    { sleep := 5 * 2 ^ (attempt - 1)
      rotated := true
      recordedFailure := hasCurrentProxy
      gaveUp := false }
  else if attempt < MAX_RETRIES then
    { sleep := 30 * 2 ^ (attempt - 1)
      rotated := false
      recordedFailure := false
      gaveUp := false }
  else
    { sleep := 0, rotated := false, recordedFailure := false, gaveUp := true }

/-! ## Politeness scheduler sleeps (`network.py`) -/

/-- `session_sleep` (`network.py` lines 229-234) as the closed interval
of possible sleep durations: non-positive totals return immediately
(modelled `(0, 0)`), otherwise the sleep is drawn uniformly from
`[max(0, total - total*jitter), total + total*jitter]`. -/
def session_sleep_range (total : ℚ) (jitter : ℚ) : ℚ × ℚ :=
  if total ≤ 0 then (0, 0)
  else (max 0 (total - total * jitter), total + total * jitter)

/-! ## Frontier crawl loop (`crawler.py` `crawl`, lines 456-857) -/

/-- Python truthiness of the optional string fields of a scraped record
(`if data["brand"] and data["name"]`): `None` and `""` are falsy. -/
def pyTruthy (o : Option String) : Bool :=
  match o with
  | none => false
  | some s => s ≠ ""

/-- One appended CSV row (`append_row` with the dict built at
`crawler.py` lines 762-769 / 786-793 / 367-374). The timestamp column
does not affect control flow and is omitted. -/
structure Row where
  brand : String
  name : String
  rating : ℚ
  votes : ℕ
  url : String
  deriving DecidableEq

/-- `row = {...}` built from a complete record for final URL `u`. -/
def mkRow (d : PageData) (u : String) : Row :=
  { brand := d.brand.getD "", name := d.name.getD ""
    rating := d.rating.getD 0, votes := d.votes.getD 0, url := u }

/-- The abstracted result of the whole retry loop for one frontier URL:
whether it ended in success, the final URL after redirects (`resp.url`),
the record scraped from the final document, and the in-scope links
extracted by `extract_links` (already normalized and domain/path
filtered, in iteration order). The attempt-level behaviour of the retry
loop itself is modelled separately by `fstep`/`frun`. -/
structure FetchResult where
  ok : Bool
  finalUrl : String
  data : PageData
  links : List String

/-- Environment of one `crawl` invocation: the robots verdict for the
current user agent (`can_fetch`, `network.py` lines 149-153), the
`PERFUME_URL_RE` detail-page test, the transport, the optional brand
filter (the comparison of `_normalize_brand_compare` values at
`crawler.py` lines 747-752, as a predicate on the scraped record and
final URL), the link-level brand-slug filter (`crawler.py` lines
836-841, true = link kept), and the scheduler parameters. -/
structure CrawlEnv where
  robots : String → Bool
  isPerfume : String → Bool
  fetch : String → FetchResult
  brandFilter : Option (PageData → String → Bool)
  linkBrandOk : String → Bool
  sessionSize : ℤ
  maxPages : ℤ
  breakSeconds : ℚ

/-- State threaded through the `while queue` loop of `crawl`.
`fetchedLog`, `enqueueLog` and `breakLog` are ghost logs of every URL
passed to `session.get`, every URL appended to the frontier queue
(seeds included), and the duration interval of every session-break
sleep. -/
structure CState where
  queue : List String
  seen : List String
  existing : List String
  rows : List Row
  pagesProcessed : ℕ
  savedSinceBreak : ℕ
  fetchedLog : List String
  enqueueLog : List String
  breakLog : List (ℚ × ℚ)
  /-- Ghost count of the identity rotations performed at session breaks
  (`rotate_identity(per_session=True)`, `crawler.py` line 822). -/
  breakRotations : ℕ

/-- The loop/budget guard `(args.max_pages <= 0 or pages_processed <
args.max_pages)` (`crawler.py` lines 602, 812, 825). -/
def budgetOk (maxPages : ℤ) (pagesProcessed : ℕ) : Bool :=
  decide (maxPages ≤ 0 ∨ (pagesProcessed : ℤ) < maxPages)

/-- Offering one discovered link to the frontier (`crawler.py` lines
831-844): drop links already seen; under an active brand filter drop
detail-page links whose URL-derived brand slug mismatches; otherwise
mark seen and append to the queue. -/
def offerLink (env : CrawlEnv) (st : CState) (link : String) : CState :=
  if link ∈ st.seen then st
  else if env.brandFilter.isSome ∧ env.isPerfume link = true ∧ env.linkBrandOk link = false then st
  else
    { st with seen := link :: st.seen, queue := st.queue ++ [link],
              enqueueLog := st.enqueueLog ++ [link] }

/-- The `for link in extract_links(...)` loop (`crawler.py` line 831). -/
def offerLinks (env : CrawlEnv) (links : List String) (st : CState) : CState :=
  links.foldl (offerLink env) st

/-- The persistence block for a perfume page (`crawler.py` lines
756-774 and its copy at 780-798): records missing rating or votes are
skipped, URLs already known are skipped, otherwise the row is appended
and the URL added to the known set. Returns the new state and whether a
save happened (`saved_incremented`). -/
def saveStep (st : CState) (d : PageData) (u : String) : CState × Bool :=
  if pyTruthy d.brand ∧ pyTruthy d.name then
    if d.rating = none ∨ d.votes = none then (st, false)
    else if u ∈ st.existing then (st, false)
    else
      ({ st with rows := st.rows ++ [mkRow d u], existing := u :: st.existing }, true)
  else (st, false)

/-- The detail-page processing of one successfully fetched frontier URL
(`crawler.py` lines 738-802): non-detail pages are left alone; detail
pages adopt the redirect-final URL (lines 740-743), pass through the
optional brand filter (lines 747-754, mismatches neither save nor
count), and run the persistence block, counting the page. Returns the
new state and `saved_incremented`. -/
def processPerfume (env : CrawlEnv) (url : String) (fr : FetchResult)
    (st : CState) : CState × Bool :=
  if env.isPerfume url = true then
    match env.brandFilter with
    | some bf =>
      if bf fr.data fr.finalUrl then
        let s1 := saveStep st fr.data fr.finalUrl
        ({ s1.1 with pagesProcessed := s1.1.pagesProcessed + 1 }, s1.2)
      else (st, false)
    | none =>
      let s1 := saveStep st fr.data fr.finalUrl
      ({ s1.1 with pagesProcessed := s1.1.pagesProcessed + 1 }, s1.2)
  else (st, false)

/-- Save-counter bump and session break of the frontier loop
(`crawler.py` lines 804-822): after a save, take the jittered cooldown
when the carried counter reaches `session_size` and work remains, then
switch identity for the next session (`rotate_identity(per_session =
True)`, line 822, counted in `breakRotations`). -/
def bumpAndBreak (env : CrawlEnv) (saved : Bool) (st : CState) : CState :=
  let st := if saved then { st with savedSinceBreak := st.savedSinceBreak + 1 } else st
  if saved = true ∧ 0 < env.sessionSize ∧ env.sessionSize ≤ (st.savedSinceBreak : ℤ) ∧
      st.queue ≠ [] ∧ budgetOk env.maxPages st.pagesProcessed = true then
    { st with
      breakLog := st.breakLog ++ [session_sleep_range env.breakSeconds (15 / 100)],
      savedSinceBreak := 0,
      breakRotations := st.breakRotations + 1 }
  else st

/-- What follows a successful fetch in the loop body (`crawler.py`
lines 735-844): process the page, bump the save counter / take a
session break, then offer extracted links (budget permitting). -/
def crawlSuccessTail (env : CrawlEnv) (url : String) (fr : FetchResult)
    (st2 : CState) : CState :=
  let stp := processPerfume env url fr st2
  let st3 := bumpAndBreak env stp.2 stp.1
  if budgetOk env.maxPages st3.pagesProcessed = true then offerLinks env fr.links st3
  else st3

/-- One iteration of the `while queue` body of `crawl` (`crawler.py`
lines 602-850): pop; robots check (line 605); skip already-saved
detail URLs (line 610); fetch via the retry loop (abstracted to its
outcome); on success run `crawlSuccessTail`. Identity rotation and
politeness sleeps that carry no claim-relevant state are not
tracked. -/
def crawlStep (env : CrawlEnv) (st : CState) : CState :=
  match st.queue with
  | [] => st
  | url :: rest =>
    let st1 := { st with queue := rest }
    if env.robots url = false then st1
    else if env.isPerfume url = true ∧ url ∈ st1.existing then st1
    else
      let fr := env.fetch url
      let st2 := { st1 with fetchedLog := st1.fetchedLog ++ [url] }
      if fr.ok = false then st2
      else crawlSuccessTail env url fr st2

/-- Up to `n` iterations of the crawl loop, stopping when the queue is
empty or the page budget is reached (`crawler.py` line 602). -/
def crawlLoop (env : CrawlEnv) : ℕ → CState → CState
  | 0, st => st
  | n + 1, st =>
    if st.queue ≠ [] ∧ budgetOk env.maxPages st.pagesProcessed = true then
      crawlLoop env n (crawlStep env st)
    else st

/-- Initial crawl state (`crawler.py` lines 562-600): seeds (already
normalized and domain-filtered, lines 571-579) enter both the queue and
the seen set; known URLs come from `load_existing_urls`; the
saved-since-break counter is the value carried in through
`args.saved_since_break` (line 597). -/
def initState (seeds existing : List String) (saved0 : ℕ) : CState :=
  { queue := seeds, seen := seeds, existing := existing, rows := [],
    pagesProcessed := 0, savedSinceBreak := saved0,
    fetchedLog := [], enqueueLog := seeds, breakLog := [], breakRotations := 0 }

/-! ## Brand-scrape path (`crawler.py` `_scrape_brand_simple`, lines 106-453) -/

/-- Abstracted outcome of the per-URL attempt loop of
`_scrape_brand_simple` (lines 252-344): whether a document was obtained,
the final URL after redirects, and the scraped record (computed from the
originally requested URL, line 354). -/
structure SFetch where
  ok : Bool
  finalUrl : String
  data : PageData

/-- State threaded through the per-perfume loop of
`_scrape_brand_simple`. `fetchedLog` and `breakLog` are ghost logs as in
`CState`. -/
structure SState where
  existing : List String
  rows : List Row
  savedCount : ℕ
  savedSinceBreak : ℕ
  fetchedLog : List String
  breakLog : List (ℚ × ℚ)
  /-- Ghost count of the identity rotations performed at session breaks
  (the fresh UA/language/proxy/session built at `crawler.py` lines
  395-400). -/
  breakRotations : ℕ

/-- The order-preserving dedup of the collected perfume URLs
(`crawler.py` lines 204-212). -/
def dedupKeepOrder (seen : List String) : List String → List String
  | [] => []
  | u :: rest =>
    if u ∈ seen then dedupKeepOrder seen rest
    else u :: dedupKeepOrder (u :: seen) rest

/-- Building the work list of `_scrape_brand_simple` (`crawler.py` lines
174-212): of the candidate detail-page URLs found on the brand page
(already regex- and brand-slug-filtered and normalized, lines 175-199),
keep those not already in the store, then dedup preserving order. -/
def collectPerfumeUrls (candidates existing : List String) : List String :=
  dedupKeepOrder [] (candidates.filter (fun u => decide (u ∉ existing)))

/-- One iteration of the per-perfume loop of `_scrape_brand_simple`
(`crawler.py` lines 232-400): fetch (failures go to the retry list and
change nothing else); adopt the redirect-final URL (lines 357-360); if
brand and name are present and rating and votes are both present,
append the row and add the final URL to the known set — with *no*
re-check of the store against the final URL (lines 362-380); then take
the session break when the save counter is due and URLs remain (lines
385-400) — a plain `time.sleep(args.session_break_seconds)`, hence the
degenerate duration interval — followed by a fresh identity (lines
395-400, counted in `breakRotations`). -/
def simpleStep (fetch : String → SFetch) (sessionSize : ℤ) (breakSeconds : ℚ)
    (url : String) (remaining : ℕ) (st : SState) : SState :=
  let fr := fetch url
  let st := { st with fetchedLog := st.fetchedLog ++ [url] }
  if fr.ok = false then st
  else
    let u := fr.finalUrl
    let st :=
      if pyTruthy fr.data.brand ∧ pyTruthy fr.data.name then
        if fr.data.rating = none ∨ fr.data.votes = none then st
        else
          { st with rows := st.rows ++ [mkRow fr.data u], existing := u :: st.existing,
                    savedCount := st.savedCount + 1,
                    savedSinceBreak := st.savedSinceBreak + 1 }
      else st
    if 0 < sessionSize ∧ sessionSize ≤ (st.savedSinceBreak : ℤ) ∧ 0 < remaining then
      { st with breakLog := st.breakLog ++ [(breakSeconds, breakSeconds)],
                savedSinceBreak := 0,
                breakRotations := st.breakRotations + 1 }
    else st

/-- The per-perfume loop of `_scrape_brand_simple` over the work list;
`remaining` inside an iteration is the number of URLs after the current
one (`len(perfume_urls) - idx`). -/
def simpleRun (fetch : String → SFetch) (sessionSize : ℤ) (breakSeconds : ℚ) :
    List String → SState → SState
  | [], st => st
  | u :: rest, st =>
    simpleRun fetch sessionSize breakSeconds rest
      (simpleStep fetch sessionSize breakSeconds u rest.length st)

/-- Fresh state of one `_scrape_brand_simple` invocation with carried
save counter `c` (`crawler.py` line 227: `saved_since_break =
int(getattr(args, "saved_since_break", 0) or 0)`). -/
def simpleInit (existing : List String) (c : ℕ) : SState :=
  { existing := existing, rows := [], savedCount := 0, savedSinceBreak := c,
    fetchedLog := [], breakLog := [], breakRotations := 0 }

/-- The data of one brand in a multi-brand run. -/
structure BrandJob where
  fetch : String → SFetch
  urls : List String
  existing : List String

/-- One brand invocation of the multi-brand loop of `main`
(`src/main.py` lines 164-177): `crawl` with a brand delegates to
`_scrape_brand_simple` (`crawler.py` line 491), started with the carried
save counter. -/
def runBrand (sessionSize : ℤ) (breakSeconds : ℚ) (job : BrandJob) (c : ℕ) : SState :=
  simpleRun job.fetch sessionSize breakSeconds job.urls (simpleInit job.existing c)

/-- The carried `saved_since_break` counter across the multi-brand loop
of `main` (`src/main.py` lines 162-177, reading back
`args.saved_since_break_end`, set at `crawler.py` line 445). -/
def multiBrandCounter (sessionSize : ℤ) (breakSeconds : ℚ) :
    List BrandJob → ℕ → ℕ
  | [], c => c
  | j :: rest, c =>
    multiBrandCounter sessionSize breakSeconds rest
      ((runBrand sessionSize breakSeconds j c).savedSinceBreak)

/-! ## Helper lemmas -/

theorem saveStep_of_missing (st : CState) (d : PageData) (u : String)
    (h : d.rating = none ∨ d.votes = none) : saveStep st d u = (st, false) := by
  unfold saveStep
  split_ifs <;> simp_all

theorem offerLink_rows_existing (env : CrawlEnv) (st : CState) (l : String) :
    (offerLink env st l).rows = st.rows ∧ (offerLink env st l).existing = st.existing := by
  unfold offerLink
  split
  · exact ⟨rfl, rfl⟩
  split
  · exact ⟨rfl, rfl⟩
  · exact ⟨rfl, rfl⟩

theorem offerLinks_rows_existing (env : CrawlEnv) (links : List String) (st : CState) :
    (offerLinks env links st).rows = st.rows ∧
    (offerLinks env links st).existing = st.existing := by
  induction links generalizing st with
  | nil => exact ⟨rfl, rfl⟩
  | cons l ls ih =>
    have h1 := offerLink_rows_existing env st l
    have h2 := ih (offerLink env st l)
    simp only [offerLinks, List.foldl_cons] at h2 ⊢
    exact ⟨h2.1.trans h1.1, h2.2.trans h1.2⟩

theorem processPerfume_of_missing (env : CrawlEnv) (url : String)
    (fr : FetchResult) (st : CState)
    (h : fr.data.rating = none ∨ fr.data.votes = none) :
    (processPerfume env url fr st).1.rows = st.rows ∧
    (processPerfume env url fr st).1.existing = st.existing := by
  unfold processPerfume
  split
  · cases env.brandFilter with
    | none => simp [saveStep_of_missing _ _ _ h]
    | some bf =>
      simp only
      split
      · simp [saveStep_of_missing _ _ _ h]
      · exact ⟨rfl, rfl⟩
  · exact ⟨rfl, rfl⟩

theorem bumpAndBreak_rows_existing (env : CrawlEnv) (saved : Bool) (st : CState) :
    (bumpAndBreak env saved st).rows = st.rows ∧
    (bumpAndBreak env saved st).existing = st.existing := by
  unfold bumpAndBreak
  simp only
  split <;> split <;> exact ⟨rfl, rfl⟩

theorem crawlSuccessTail_of_missing (env : CrawlEnv) (url : String)
    (fr : FetchResult) (st2 : CState)
    (h : fr.data.rating = none ∨ fr.data.votes = none) :
    (crawlSuccessTail env url fr st2).rows = st2.rows ∧
    (crawlSuccessTail env url fr st2).existing = st2.existing := by
  have hp := processPerfume_of_missing env url fr st2 h
  have hb := bumpAndBreak_rows_existing env (processPerfume env url fr st2).2
    (processPerfume env url fr st2).1
  have ho := offerLinks_rows_existing env fr.links
    (bumpAndBreak env (processPerfume env url fr st2).2 (processPerfume env url fr st2).1)
  unfold crawlSuccessTail
  simp only
  split
  · exact ⟨ho.1.trans (hb.1.trans hp.1), ho.2.trans (hb.2.trans hp.2)⟩
  · exact ⟨hb.1.trans hp.1, hb.2.trans hp.2⟩

theorem offerLink_cases (env : CrawlEnv) (st : CState) (l : String) :
    offerLink env st l = st ∨
    (l ∉ st.seen ∧
      offerLink env st l =
        { st with seen := l :: st.seen, queue := st.queue ++ [l],
                  enqueueLog := st.enqueueLog ++ [l] }) := by
  unfold offerLink
  split_ifs with h1 h2
  · exact Or.inl rfl
  · exact Or.inl rfl
  · exact Or.inr ⟨h1, rfl⟩

theorem offerLinks_fields (env : CrawlEnv) (links : List String) (st : CState) :
    (offerLinks env links st).rows = st.rows ∧
    (offerLinks env links st).existing = st.existing ∧
    (offerLinks env links st).fetchedLog = st.fetchedLog ∧
    (offerLinks env links st).breakLog = st.breakLog ∧
    (offerLinks env links st).pagesProcessed = st.pagesProcessed ∧
    (offerLinks env links st).savedSinceBreak = st.savedSinceBreak ∧
    (offerLinks env links st).breakRotations = st.breakRotations := by
  induction links generalizing st with
  | nil => exact ⟨rfl, rfl, rfl, rfl, rfl, rfl, rfl⟩
  | cons l ls ih =>
    simp only [offerLinks, List.foldl_cons]
    rcases offerLink_cases env st l with h1 | ⟨_, h1⟩ <;> rw [h1]
    · exact ih st
    · exact ih _

theorem saveStep_cases (st : CState) (d : PageData) (u : String) :
    saveStep st d u = (st, false) ∨
    (u ∉ st.existing ∧
      saveStep st d u =
        ({ st with rows := st.rows ++ [mkRow d u], existing := u :: st.existing },
          true)) := by
  unfold saveStep
  split_ifs with h1 h2 h3
  · exact Or.inl rfl
  · exact Or.inl rfl
  · exact Or.inr ⟨h3, rfl⟩
  · exact Or.inl rfl

theorem processPerfume_cases (env : CrawlEnv) (url : String) (fr : FetchResult)
    (st : CState) :
    (∃ p, processPerfume env url fr st = ({ st with pagesProcessed := p }, false)) ∨
    (fr.finalUrl ∉ st.existing ∧
      processPerfume env url fr st =
        ({ st with rows := st.rows ++ [mkRow fr.data fr.finalUrl],
                   existing := fr.finalUrl :: st.existing,
                   pagesProcessed := st.pagesProcessed + 1 }, true)) := by
  unfold processPerfume
  split
  · cases env.brandFilter with
    | none =>
      simp only
      rcases saveStep_cases st fr.data fr.finalUrl with h | ⟨hn, h⟩ <;> rw [h]
      · exact Or.inl ⟨st.pagesProcessed + 1, rfl⟩
      · exact Or.inr ⟨hn, rfl⟩
    | some bf =>
      simp only
      split
      · rcases saveStep_cases st fr.data fr.finalUrl with h | ⟨hn, h⟩ <;> rw [h]
        · exact Or.inl ⟨st.pagesProcessed + 1, rfl⟩
        · exact Or.inr ⟨hn, rfl⟩
      · exact Or.inl ⟨st.pagesProcessed, rfl⟩
  · exact Or.inl ⟨st.pagesProcessed, rfl⟩

theorem bumpAndBreak_cases (env : CrawlEnv) (saved : Bool) (st : CState) :
    (∃ n, bumpAndBreak env saved st = { st with savedSinceBreak := n }) ∨
    (∃ n, bumpAndBreak env saved st =
      { st with savedSinceBreak := n,
                breakLog := st.breakLog ++
                  [session_sleep_range env.breakSeconds (15 / 100)],
                breakRotations := st.breakRotations + 1 }) := by
  unfold bumpAndBreak
  simp only
  split <;> split <;>
    first
      | exact Or.inr ⟨0, rfl⟩
      | exact Or.inl ⟨st.savedSinceBreak + 1, rfl⟩
      | exact Or.inl ⟨st.savedSinceBreak, rfl⟩

theorem crawlSuccessTail_breakLog (env : CrawlEnv) (url : String) (fr : FetchResult)
    (st2 : CState) :
    (crawlSuccessTail env url fr st2).breakLog = st2.breakLog ∨
    (crawlSuccessTail env url fr st2).breakLog =
      st2.breakLog ++ [session_sleep_range env.breakSeconds (15 / 100)] := by
  unfold crawlSuccessTail
  simp only
  rcases processPerfume_cases env url fr st2 with ⟨p, hp⟩ | ⟨hn, hp⟩ <;>
    rw [hp] <;> simp only <;>
    rcases bumpAndBreak_cases env _ _ with ⟨n, hb⟩ | ⟨n, hb⟩ <;> rw [hb] <;>
    split <;> simp [offerLinks_fields]

theorem crawlStep_breakLog (env : CrawlEnv) (st : CState) :
    (crawlStep env st).breakLog = st.breakLog ∨
    (crawlStep env st).breakLog =
      st.breakLog ++ [session_sleep_range env.breakSeconds (15 / 100)] := by
  obtain ⟨q, seen, ex, rows, pp, ssb, fl, el, bl, rot⟩ := st
  cases q with
  | nil => exact Or.inl rfl
  | cons url rest =>
    unfold crawlStep
    simp only
    split
    · exact Or.inl rfl
    split
    · exact Or.inl rfl
    split
    · exact Or.inl rfl
    · exact crawlSuccessTail_breakLog env url (env.fetch url) _

theorem crawlLoop_breakLog (env : CrawlEnv) (fuel : ℕ) (st : CState) (b : ℚ × ℚ)
    (hb : b ∈ (crawlLoop env fuel st).breakLog) :
    b ∈ st.breakLog ∨ b = session_sleep_range env.breakSeconds (15 / 100) := by
  induction fuel generalizing st with
  | zero => exact Or.inl hb
  | succ n ih =>
    unfold crawlLoop at hb
    split at hb
    · rcases ih _ hb with h | h
      · rcases crawlStep_breakLog env st with hs | hs <;> rw [hs] at h
        · exact Or.inl h
        · rcases List.mem_append.mp h with h | h
          · exact Or.inl h
          · exact Or.inr (List.mem_singleton.mp h)
      · exact Or.inr h
    · exact Or.inl hb

theorem simpleStep_breakLog (f : String → SFetch) (ss : ℤ) (bs : ℚ) (u : String)
    (rem : ℕ) (st : SState) :
    (simpleStep f ss bs u rem st).breakLog = st.breakLog ∨
    (simpleStep f ss bs u rem st).breakLog = st.breakLog ++ [(bs, bs)] := by
  unfold simpleStep
  simp only
  split_ifs <;> simp

theorem simpleRun_breakLog (f : String → SFetch) (ss : ℤ) (bs : ℚ)
    (urls : List String) (st : SState) (b : ℚ × ℚ)
    (hb : b ∈ (simpleRun f ss bs urls st).breakLog) :
    b ∈ st.breakLog ∨ b = (bs, bs) := by
  induction urls generalizing st with
  | nil => exact Or.inl hb
  | cons u rest ih =>
    unfold simpleRun at hb
    rcases ih _ hb with h | h
    · rcases simpleStep_breakLog f ss bs u rest.length st with hs | hs <;> rw [hs] at h
      · exact Or.inl h
      · rcases List.mem_append.mp h with h | h
        · exact Or.inl h
        · exact Or.inr (List.mem_singleton.mp h)
    · exact Or.inr h

theorem crawlSuccessTail_breakPair (env : CrawlEnv) (url : String)
    (fr : FetchResult) (st2 : CState) :
    ((crawlSuccessTail env url fr st2).breakLog = st2.breakLog ∧
      (crawlSuccessTail env url fr st2).breakRotations = st2.breakRotations) ∨
    ((crawlSuccessTail env url fr st2).breakLog =
        st2.breakLog ++ [session_sleep_range env.breakSeconds (15 / 100)] ∧
      (crawlSuccessTail env url fr st2).breakRotations = st2.breakRotations + 1) := by
  unfold crawlSuccessTail
  simp only
  rcases processPerfume_cases env url fr st2 with ⟨p, hp⟩ | ⟨hn, hp⟩ <;>
    rw [hp] <;> simp only <;>
    rcases bumpAndBreak_cases env _ _ with ⟨n, hb⟩ | ⟨n, hb⟩ <;> rw [hb] <;>
    split <;> simp [offerLinks_fields]

theorem crawlStep_breakPair (env : CrawlEnv) (st : CState) :
    ((crawlStep env st).breakLog = st.breakLog ∧
      (crawlStep env st).breakRotations = st.breakRotations) ∨
    ((crawlStep env st).breakLog =
        st.breakLog ++ [session_sleep_range env.breakSeconds (15 / 100)] ∧
      (crawlStep env st).breakRotations = st.breakRotations + 1) := by
  obtain ⟨q, seen, ex, rows, pp, ssb, fl, el, bl, rot⟩ := st
  cases q with
  | nil => exact Or.inl ⟨rfl, rfl⟩
  | cons url rest =>
    unfold crawlStep
    simp only
    split
    · exact Or.inl ⟨rfl, rfl⟩
    split
    · exact Or.inl ⟨rfl, rfl⟩
    split
    · exact Or.inl ⟨rfl, rfl⟩
    · exact crawlSuccessTail_breakPair env url (env.fetch url) _

theorem crawlLoop_breakRotations (env : CrawlEnv) (fuel : ℕ) (st : CState) :
    (crawlLoop env fuel st).breakLog.length + st.breakRotations =
      (crawlLoop env fuel st).breakRotations + st.breakLog.length := by
  induction fuel generalizing st with
  | zero =>
    simp only [crawlLoop]
    omega
  | succ n ih =>
    unfold crawlLoop
    split
    · have hloop := ih (crawlStep env st)
      rcases crawlStep_breakPair env st with ⟨h1, h2⟩ | ⟨h1, h2⟩ <;>
        rw [h1, h2] at hloop <;>
        (try simp only [List.length_append, List.length_singleton] at hloop) <;>
        omega
    · omega

theorem simpleStep_breakPair (f : String → SFetch) (ss : ℤ) (bs : ℚ) (u : String)
    (rem : ℕ) (st : SState) :
    ((simpleStep f ss bs u rem st).breakLog = st.breakLog ∧
      (simpleStep f ss bs u rem st).breakRotations = st.breakRotations) ∨
    ((simpleStep f ss bs u rem st).breakLog = st.breakLog ++ [(bs, bs)] ∧
      (simpleStep f ss bs u rem st).breakRotations = st.breakRotations + 1) := by
  unfold simpleStep
  simp only
  split_ifs <;> simp

theorem simpleRun_breakRotations (f : String → SFetch) (ss : ℤ) (bs : ℚ) :
    ∀ (urls : List String) (st : SState),
      (simpleRun f ss bs urls st).breakLog.length + st.breakRotations =
        (simpleRun f ss bs urls st).breakRotations + st.breakLog.length := by
  intro urls
  induction urls with
  | nil =>
    intro st
    simp only [simpleRun]
    omega
  | cons u rest ih =>
    intro st
    unfold simpleRun
    have hloop := ih (simpleStep f ss bs u rest.length st)
    rcases simpleStep_breakPair f ss bs u rest.length st with ⟨h1, h2⟩ | ⟨h1, h2⟩ <;>
      rw [h1, h2] at hloop <;>
      (try simp only [List.length_append, List.length_singleton] at hloop) <;>
      omega

/-- Frontier-dedup invariant: the enqueue log is duplicate-free and
everything ever enqueued has been marked seen. -/
def EnqInv (st : CState) : Prop :=
  st.enqueueLog.Nodup ∧ ∀ u ∈ st.enqueueLog, u ∈ st.seen

theorem offerLink_enq (env : CrawlEnv) (st : CState) (l : String)
    (h : EnqInv st) : EnqInv (offerLink env st l) := by
  rcases offerLink_cases env st l with hc | ⟨hns, hc⟩ <;> rw [hc]
  · exact h
  · constructor
    · refine List.nodup_append.mpr ⟨h.1, List.nodup_singleton l, ?_⟩
      intro a ha hal
      rw [List.mem_singleton.mp hal] at ha
      exact hns (h.2 l ha)
    · intro u hu
      rcases List.mem_append.mp hu with hu | hu
      · exact List.mem_cons_of_mem _ (h.2 u hu)
      · rw [List.mem_singleton.mp hu]
        exact List.mem_cons_self _ _

theorem offerLinks_enq (env : CrawlEnv) (links : List String) (st : CState)
    (h : EnqInv st) : EnqInv (offerLinks env links st) := by
  induction links generalizing st with
  | nil => exact h
  | cons l ls ih =>
    simp only [offerLinks, List.foldl_cons]
    exact ih (offerLink env st l) (offerLink_enq env st l h)

theorem crawlSuccessTail_enq (env : CrawlEnv) (url : String) (fr : FetchResult)
    (st2 : CState) (h : EnqInv st2) : EnqInv (crawlSuccessTail env url fr st2) := by
  unfold crawlSuccessTail
  simp only
  rcases processPerfume_cases env url fr st2 with ⟨p, hp⟩ | ⟨hn, hp⟩ <;>
    rw [hp] <;> simp only <;>
    rcases bumpAndBreak_cases env _ _ with ⟨n, hb⟩ | ⟨n, hb⟩ <;> rw [hb] <;>
    split
  all_goals first
    | exact offerLinks_enq env fr.links _ h
    | exact h

theorem crawlStep_enq (env : CrawlEnv) (st : CState) (h : EnqInv st) :
    EnqInv (crawlStep env st) := by
  obtain ⟨q, seen, ex, rows, pp, ssb, fl, el, bl, rot⟩ := st
  cases q with
  | nil => exact h
  | cons url rest =>
    unfold crawlStep
    simp only
    split
    · exact h
    split
    · exact h
    split
    · exact h
    · exact crawlSuccessTail_enq env url (env.fetch url) _ h

theorem crawlLoop_enq (env : CrawlEnv) (fuel : ℕ) (st : CState) (h : EnqInv st) :
    EnqInv (crawlLoop env fuel st) := by
  induction fuel generalizing st with
  | zero => exact h
  | succ n ih =>
    unfold crawlLoop
    split
    · exact ih _ (crawlStep_enq env st h)
    · exact h

theorem crawlSuccessTail_fetchedLog (env : CrawlEnv) (url : String)
    (fr : FetchResult) (st2 : CState) :
    (crawlSuccessTail env url fr st2).fetchedLog = st2.fetchedLog := by
  unfold crawlSuccessTail
  simp only
  rcases processPerfume_cases env url fr st2 with ⟨p, hp⟩ | ⟨hn, hp⟩ <;>
    rw [hp] <;> simp only <;>
    rcases bumpAndBreak_cases env _ _ with ⟨n, hb⟩ | ⟨n, hb⟩ <;> rw [hb] <;>
    split <;> simp [offerLinks_fields]

theorem crawlStep_robots (env : CrawlEnv) (st : CState)
    (h : ∀ u ∈ st.fetchedLog, env.robots u = true) :
    ∀ u ∈ (crawlStep env st).fetchedLog, env.robots u = true := by
  obtain ⟨q, seen, ex, rows, pp, ssb, fl, el, bl, rot⟩ := st
  cases q with
  | nil => exact h
  | cons url rest =>
    unfold crawlStep
    simp only
    split
    · exact h
    next hrob =>
      split
      · exact h
      split
      · intro u hu
        rcases List.mem_append.mp hu with hu | hu
        · exact h u hu
        · rw [List.mem_singleton.mp hu]
          exact Bool.not_eq_false _ |>.mp hrob
      · intro u hu
        rw [crawlSuccessTail_fetchedLog] at hu
        rcases List.mem_append.mp hu with hu | hu
        · exact h u hu
        · rw [List.mem_singleton.mp hu]
          exact Bool.not_eq_false _ |>.mp hrob

theorem crawlLoop_robots (env : CrawlEnv) (fuel : ℕ) (st : CState)
    (h : ∀ u ∈ st.fetchedLog, env.robots u = true) :
    ∀ u ∈ (crawlLoop env fuel st).fetchedLog, env.robots u = true := by
  induction fuel generalizing st with
  | zero => exact h
  | succ n ih =>
    unfold crawlLoop
    split
    · exact ih _ (crawlStep_robots env st h)
    · exact h

theorem metaLoop_isSome_iff (metas : List TText) (fb : Option String) :
    (metaLoop metas fb).1.isSome = true ↔
    ∃ t ∈ metas, (acceptFull t).isSome = true := by
  induction metas generalizing fb with
  | nil => simp [metaLoop]
  | cons t ts ih =>
    unfold metaLoop
    cases h : t.full.head? with
    | none =>
      simp only [h]
      rw [ih]
      simp [acceptFull, h]
    | some cs =>
      obtain ⟨c, s⟩ := cs
      simp only [h]
      by_cases hc : c.length ≤ 80
      · rw [if_pos hc]
        simp [acceptFull, h, hc]
      · rw [if_neg hc]
        rw [ih]
        simp [acceptFull, h, hc]

theorem blockLoop_isSome_iff (blocks : List TText) (fb : Option String) :
    (blockLoop blocks fb).1.isSome = true ↔
    ∃ t ∈ blocks, t.hasFragranceFor = true ∧ (acceptFull t).isSome = true := by
  induction blocks generalizing fb with
  | nil => simp [blockLoop]
  | cons t ts ih =>
    unfold blockLoop
    by_cases hg : t.hasFragranceFor = true
    · rw [if_pos hg]
      cases h : t.full.head? with
      | none =>
        simp only [h]
        rw [ih]
        simp [acceptFull, h, hg]
      | some cs =>
        obtain ⟨c, s⟩ := cs
        simp only [h]
        by_cases hc : c.length ≤ 80
        · rw [if_pos hc]
          simp [acceptFull, h, hc, hg]
        · rw [if_neg hc]
          rw [ih]
          simp [acceptFull, h, hc]
    · rw [if_neg hg]
      rw [ih]
      simp [hg]

theorem frun_inv (hp : Bool) (base : ℚ) (outs : ℕ → COutcome) (n : ℕ) :
    (frun hp base outs n).attempt ≤ 3 ∧
    ((frun hp base outs n).finished = true → (frun hp base outs n).fetches ≤ 3) ∧
    ((frun hp base outs n).finished = false →
      1 ≤ (frun hp base outs n).attempt ∧
      (frun hp base outs n).fetches + 1 = (frun hp base outs n).attempt) := by
  induction n with
  | zero =>
    refine ⟨by norm_num [frun, floopInit], by simp [frun, floopInit], ?_⟩
    intro
    simp [frun, floopInit]
  | succ k ih =>
    obtain ⟨h1, h2, h3⟩ := ih
    have hstep : frun hp base outs (k + 1) = fstep hp base outs (frun hp base outs k) :=
      rfl
    rw [hstep]
    cases hf : (frun hp base outs k).finished with
    | true =>
      unfold fstep
      rw [if_pos hf]
      exact ⟨h1, h2, h3⟩
    | false =>
      obtain ⟨ha1, ha2⟩ := h3 hf
      unfold fstep
      rw [if_neg (by simp [hf])]
      simp only
      cases ho : outs (frun hp base outs k).fetches <;>
        simp only <;>
        (try split) <;>
        (try split) <;>
        simp_all [MAX_RETRIES] <;>
        omega

theorem frun_fetches_le (hp : Bool) (base : ℚ) (outs : ℕ → COutcome) (n : ℕ) :
    (frun hp base outs n).fetches ≤ 3 := by
  obtain ⟨h1, h2, h3⟩ := frun_inv hp base outs n
  cases hf : (frun hp base outs n).finished with
  | true => exact h2 hf
  | false =>
    obtain ⟨_, ha2⟩ := h3 hf
    omega

theorem sfrun_inv (hp : Bool) (outs : ℕ → COutcome) (n : ℕ) :
    (sfrun hp outs n).attempt ≤ 3 ∧
    ((sfrun hp outs n).finished = true → (sfrun hp outs n).fetches ≤ 3) ∧
    ((sfrun hp outs n).finished = false →
      1 ≤ (sfrun hp outs n).attempt ∧
      (sfrun hp outs n).fetches + 1 = (sfrun hp outs n).attempt) := by
  induction n with
  | zero =>
    refine ⟨by norm_num [sfrun, floopInit], by simp [sfrun, floopInit], ?_⟩
    intro
    simp [sfrun, floopInit]
  | succ k ih =>
    obtain ⟨h1, h2, h3⟩ := ih
    have hstep : sfrun hp outs (k + 1) = sfstep hp outs (sfrun hp outs k) := rfl
    rw [hstep]
    cases hf : (sfrun hp outs k).finished with
    | true =>
      unfold sfstep
      rw [if_pos hf]
      exact ⟨h1, h2, h3⟩
    | false =>
      obtain ⟨ha1, ha2⟩ := h3 hf
      unfold sfstep
      rw [if_neg (by simp [hf])]
      simp only
      cases ho : outs (sfrun hp outs k).fetches <;>
        simp only <;>
        (try split) <;>
        (try split) <;>
        simp_all [MAX_RETRIES] <;>
        omega

theorem sfrun_fetches_le (hp : Bool) (outs : ℕ → COutcome) (n : ℕ) :
    (sfrun hp outs n).fetches ≤ 3 := by
  obtain ⟨h1, h2, h3⟩ := sfrun_inv hp outs n
  cases hf : (sfrun hp outs n).finished with
  | true => exact h2 hf
  | false =>
    obtain ⟨_, ha2⟩ := h3 hf
    omega

theorem getD_mem (ps : List String) (i : ℕ) (h : i < ps.length) :
    ps.getD i "" ∈ ps := by
  rw [List.getD_eq_getElem?_getD, List.getElem?_eq_getElem h]
  exact List.getElem_mem h

theorem findProxyLoop_none (ps : List String) (fail : String → ℕ)
    (hall : ∀ p ∈ ps, 3 ≤ fail p) (hn : 0 < ps.length) :
    ∀ (fuel idx : ℕ), idx < ps.length →
      findProxyLoop ps fail fuel idx = (none, (idx + fuel) % ps.length) := by
  intro fuel
  induction fuel with
  | zero =>
    intro idx hidx
    simp [findProxyLoop, Nat.mod_eq_of_lt hidx]
  | succ m ih =>
    intro idx hidx
    unfold findProxyLoop
    simp only
    have hmem := getD_mem ps ((idx + 1) % ps.length) (Nat.mod_lt _ hn)
    rw [if_neg (by have := hall _ hmem; omega)]
    rw [ih _ (Nat.mod_lt _ hn)]
    rw [Nat.mod_add_mod]
    congr 2
    omega

theorem findProxyLoop_found (ps : List String) (fail : String → ℕ) :
    ∀ (fuel idx k : ℕ), k < fuel →
      (∀ j < k, ¬ fail (ps.getD ((idx + j + 1) % ps.length) "") < 3) →
      fail (ps.getD ((idx + k + 1) % ps.length) "") < 3 →
      findProxyLoop ps fail fuel idx =
        (some (ps.getD ((idx + k + 1) % ps.length) ""),
          (idx + k + 1) % ps.length) := by
  intro fuel
  induction fuel with
  | zero =>
    intro idx k hk
    omega
  | succ m ih =>
    intro idx k hk hmin hgood
    unfold findProxyLoop
    simp only
    cases k with
    | zero =>
      rw [if_pos hgood]
    | succ k0 =>
      have h0 := hmin 0 (Nat.succ_pos k0)
      rw [if_neg (by simpa using h0)]
      have hshift : ∀ j : ℕ,
          ((idx + 1) % ps.length + j + 1) % ps.length =
          (idx + (j + 1) + 1) % ps.length := by
        intro j
        rw [Nat.add_assoc, Nat.mod_add_mod]
        congr 1
        omega
      have hres := ih ((idx + 1) % ps.length) k0 (by omega)
        (fun j hj => by rw [hshift j]; exact hmin (j + 1) (by omega))
        (by rw [hshift k0]; exact hgood)
      rw [hres, hshift k0]

theorem exists_offset (n a i : ℕ) (hn : 0 < n) (hi : i < n) :
    ∃ k, k < n ∧ (a + k + 1) % n = i := by
  have hrlt : (a + 1) % n < n := Nat.mod_lt _ hn
  by_cases hle : (a + 1) % n ≤ i
  · refine ⟨i - (a + 1) % n, by omega, ?_⟩
    have h1 : a + (i - (a + 1) % n) + 1 = (a + 1) + (i - (a + 1) % n) := by omega
    rw [h1, ← Nat.mod_add_mod]
    have h2 : (a + 1) % n + (i - (a + 1) % n) = i := by omega
    rw [h2, Nat.mod_eq_of_lt hi]
  · refine ⟨n + i - (a + 1) % n, by omega, ?_⟩
    have h1 : a + (n + i - (a + 1) % n) + 1 = (a + 1) + (n + i - (a + 1) % n) := by
      omega
    rw [h1, ← Nat.mod_add_mod]
    have h2 : (a + 1) % n + (n + i - (a + 1) % n) = i + n := by omega
    rw [h2, Nat.add_mod_right]
    exact Nat.mod_eq_of_lt hi

theorem dedupKeepOrder_spec (l : List String) :
    ∀ seen : List String,
      (dedupKeepOrder seen l).Nodup ∧
      ∀ u ∈ dedupKeepOrder seen l, u ∈ l ∧ u ∉ seen := by
  induction l with
  | nil => intro seen; simp [dedupKeepOrder]
  | cons u rest ih =>
    intro seen
    unfold dedupKeepOrder
    split
    · obtain ⟨h1, h2⟩ := ih seen
      exact ⟨h1, fun v hv => ⟨List.mem_cons_of_mem _ (h2 v hv).1, (h2 v hv).2⟩⟩
    · obtain ⟨h1, h2⟩ := ih (u :: seen)
      refine ⟨List.Nodup.cons (fun hmem => ?_) h1, ?_⟩
      · exact (h2 u hmem).2 (List.mem_cons_self _ _)
      · intro v hv
        rcases List.mem_cons.mp hv with hv | hv
        · subst hv
          exact ⟨List.mem_cons_self _ _, by assumption⟩
        · refine ⟨List.mem_cons_of_mem _ (h2 v hv).1, fun hvs => ?_⟩
          exact (h2 v hv).2 (List.mem_cons_of_mem _ hvs)

theorem collectPerfumeUrls_spec (cands ex : List String) :
    (collectPerfumeUrls cands ex).Nodup ∧
    ∀ u ∈ collectPerfumeUrls cands ex, u ∉ ex := by
  obtain ⟨h1, h2⟩ := dedupKeepOrder_spec (cands.filter (fun u => decide (u ∉ ex))) []
  refine ⟨h1, fun u hu => ?_⟩
  have hf := (h2 u hu).1
  exact of_decide_eq_true (List.mem_filter.mp hf).2

theorem simpleStep_cases (f : String → SFetch) (ss : ℤ) (bs : ℚ) (u : String)
    (rem : ℕ) (st : SState) :
    (∃ bl rt n, simpleStep f ss bs u rem st =
      { st with fetchedLog := st.fetchedLog ++ [u], breakLog := bl,
                savedSinceBreak := n, breakRotations := rt }) ∨
    (∃ bl rt n sc, simpleStep f ss bs u rem st =
      { st with fetchedLog := st.fetchedLog ++ [u],
                rows := st.rows ++ [mkRow (f u).data (f u).finalUrl],
                existing := (f u).finalUrl :: st.existing,
                savedCount := sc, savedSinceBreak := n, breakLog := bl,
                breakRotations := rt }) := by
  unfold simpleStep
  simp only
  split_ifs <;>
    first
      | exact Or.inl ⟨_, _, _, rfl⟩
      | exact Or.inr ⟨_, _, _, _, rfl⟩

theorem simpleRun_fetchedLog (f : String → SFetch) (ss : ℤ) (bs : ℚ) :
    ∀ (urls : List String) (st : SState),
      (simpleRun f ss bs urls st).fetchedLog = st.fetchedLog ++ urls := by
  intro urls
  induction urls with
  | nil => intro st; simp [simpleRun]
  | cons u rest ih =>
    intro st
    unfold simpleRun
    rw [ih]
    rcases simpleStep_cases f ss bs u rest.length st with ⟨bl, rt, n, h⟩ |
      ⟨bl, rt, n, sc, h⟩ <;> rw [h] <;> simp

theorem simpleRun_dedup (f : String → SFetch) (ss : ℤ) (bs : ℚ)
    (hred : ∀ u, (f u).finalUrl = u) :
    ∀ (urls : List String) (st : SState),
      urls.Nodup →
      (∀ u ∈ urls, u ∉ st.existing) →
      (st.rows.map Row.url).Nodup →
      (∀ r ∈ st.rows, r.url ∈ st.existing) →
      ((simpleRun f ss bs urls st).rows.map Row.url).Nodup ∧
      (∀ r ∈ (simpleRun f ss bs urls st).rows,
        r.url ∈ (simpleRun f ss bs urls st).existing) ∧
      (∀ r ∈ (simpleRun f ss bs urls st).rows, r ∈ st.rows ∨ r.url ∈ urls) := by
  intro urls
  induction urls with
  | nil =>
    intro st _ _ h3 h4
    exact ⟨h3, h4, fun r hr => Or.inl hr⟩
  | cons u rest ih =>
    intro st hnd hfresh h3 h4
    unfold simpleRun
    have hu : u ∉ st.existing := hfresh u (List.mem_cons_self _ _)
    rcases simpleStep_cases f ss bs u rest.length st with ⟨bl, rt, n, h⟩ |
      ⟨bl, rt, n, sc, h⟩ <;> rw [h]
    · have hres := ih
        { st with fetchedLog := st.fetchedLog ++ [u], breakLog := bl,
                  savedSinceBreak := n, breakRotations := rt }
        (List.Nodup.of_cons hnd)
        (fun v hv => hfresh v (List.mem_cons_of_mem _ hv)) h3 h4
      exact ⟨hres.1, hres.2.1, fun r hr =>
        (hres.2.2 r hr).imp id (fun hv => List.mem_cons_of_mem _ hv)⟩
    · rw [hred u] at h ⊢
      have hnd2 : ((st.rows ++ [mkRow (f u).data u]).map Row.url).Nodup := by
        rw [List.map_append]
        refine List.nodup_append.mpr ⟨h3, by simp, ?_⟩
        intro a ha hal
        simp only [List.map_cons, List.map_nil, List.mem_singleton, mkRow] at hal
        subst hal
        obtain ⟨r, hr, hru⟩ := List.mem_map.mp ha
        exact hu (hru ▸ h4 r hr)
      have hres := ih
        { st with fetchedLog := st.fetchedLog ++ [u],
                  rows := st.rows ++ [mkRow (f u).data u],
                  existing := u :: st.existing,
                  savedCount := sc, savedSinceBreak := n, breakLog := bl,
                  breakRotations := rt }
        (List.Nodup.of_cons hnd)
        (fun v hv => by
          intro hvm
          rcases List.mem_cons.mp hvm with hvu | hvm
          · exact (List.Nodup.not_mem hnd) (hvu ▸ hv)
          · exact hfresh v (List.mem_cons_of_mem _ hv) hvm)
        hnd2
        (fun r hr => by
          rcases List.mem_append.mp hr with hr | hr
          · exact List.mem_cons_of_mem _ (h4 r hr)
          · rw [List.mem_singleton.mp hr]
            exact List.mem_cons_self _ _)
      refine ⟨hres.1, hres.2.1, fun r hr => ?_⟩
      rcases hres.2.2 r hr with hr2 | hr2
      · rcases List.mem_append.mp hr2 with hr3 | hr3
        · exact Or.inl hr3
        · rw [List.mem_singleton.mp hr3]
          exact Or.inr (by simp [mkRow])
      · exact Or.inr (List.mem_cons_of_mem _ hr2)

/-- Dedup invariant of the frontier crawl against the startup store
`ex0`: the known set only grows, no fetched URL is a known detail page,
appended rows have pairwise-distinct URLs, every row URL is in the
known set, and no row URL was known at startup. -/
def DedupInv (env : CrawlEnv) (ex0 : List String) (st : CState) : Prop :=
  (∀ u ∈ ex0, u ∈ st.existing) ∧
  (∀ u ∈ st.fetchedLog, ¬(env.isPerfume u = true ∧ u ∈ ex0)) ∧
  (st.rows.map Row.url).Nodup ∧
  (∀ r ∈ st.rows, r.url ∈ st.existing) ∧
  (∀ r ∈ st.rows, r.url ∉ ex0)

theorem processPerfume_dedup (env : CrawlEnv) (ex0 : List String) (url : String)
    (fr : FetchResult) (st : CState) (h : DedupInv env ex0 st) :
    DedupInv env ex0 (processPerfume env url fr st).1 := by
  rcases processPerfume_cases env url fr st with ⟨p, hp⟩ | ⟨hn, hp⟩ <;> rw [hp]
  · exact h
  · obtain ⟨h1, h2, h3, h4, h5⟩ := h
    refine ⟨fun v hv => List.mem_cons_of_mem _ (h1 v hv), h2, ?_, ?_, ?_⟩
    · rw [List.map_append]
      refine List.nodup_append.mpr ⟨h3, by simp, ?_⟩
      intro a ha hal
      simp only [List.map_cons, List.map_nil, List.mem_singleton, mkRow] at hal
      subst hal
      obtain ⟨r, hr, hru⟩ := List.mem_map.mp ha
      exact hn (hru ▸ h4 r hr)
    · intro r hr
      rcases List.mem_append.mp hr with hr | hr
      · exact List.mem_cons_of_mem _ (h4 r hr)
      · rw [List.mem_singleton.mp hr]
        exact List.mem_cons_self _ _
    · intro r hr
      rcases List.mem_append.mp hr with hr | hr
      · exact h5 r hr
      · rw [List.mem_singleton.mp hr]
        intro hmem
        exact hn (h1 _ hmem)

theorem bumpAndBreak_dedup (env : CrawlEnv) (ex0 : List String) (saved : Bool)
    (st : CState) (h : DedupInv env ex0 st) :
    DedupInv env ex0 (bumpAndBreak env saved st) := by
  rcases bumpAndBreak_cases env saved st with ⟨n, hb⟩ | ⟨n, hb⟩ <;> rw [hb] <;> exact h

theorem offerLinks_dedup (env : CrawlEnv) (ex0 : List String) (links : List String)
    (st : CState) (h : DedupInv env ex0 st) :
    DedupInv env ex0 (offerLinks env links st) := by
  obtain ⟨e1, e2, e3, _, _, _⟩ := offerLinks_fields env links st
  obtain ⟨h1, h2, h3, h4, h5⟩ := h
  refine ⟨fun v hv => ?_, fun v hv => ?_, ?_, fun r hr => ?_, fun r hr => ?_⟩
  · rw [e2]
    exact h1 v hv
  · rw [e3] at hv
    exact h2 v hv
  · rw [e1]
    exact h3
  · rw [e1] at hr
    rw [e2]
    exact h4 r hr
  · rw [e1] at hr
    exact h5 r hr

theorem crawlSuccessTail_dedup (env : CrawlEnv) (ex0 : List String) (url : String)
    (fr : FetchResult) (st2 : CState) (h : DedupInv env ex0 st2) :
    DedupInv env ex0 (crawlSuccessTail env url fr st2) := by
  unfold crawlSuccessTail
  simp only
  split
  · exact offerLinks_dedup env ex0 fr.links _
      (bumpAndBreak_dedup env ex0 _ _ (processPerfume_dedup env ex0 url fr st2 h))
  · exact bumpAndBreak_dedup env ex0 _ _ (processPerfume_dedup env ex0 url fr st2 h)

theorem crawlStep_dedup (env : CrawlEnv) (ex0 : List String) (st : CState)
    (h : DedupInv env ex0 st) : DedupInv env ex0 (crawlStep env st) := by
  obtain ⟨q, seen, ex, rows, pp, ssb, fl, el, bl, rot⟩ := st
  cases q with
  | nil => exact h
  | cons url rest =>
    unfold crawlStep
    simp only
    split
    · exact h
    split
    · exact h
    next hskip =>
      have hlog : DedupInv env ex0
          ⟨rest, seen, ex, rows, pp, ssb, fl ++ [url], el, bl, rot⟩ := by
        obtain ⟨h1, h2, h3, h4, h5⟩ := h
        refine ⟨h1, ?_, h3, h4, h5⟩
        intro v hv
        rcases List.mem_append.mp hv with hv | hv
        · exact h2 v hv
        · rw [List.mem_singleton.mp hv]
          rintro ⟨hperf, hmem⟩
          exact hskip ⟨hperf, h1 _ hmem⟩
      split
      · exact hlog
      · exact crawlSuccessTail_dedup env ex0 url (env.fetch url) _ hlog

theorem crawlLoop_dedup (env : CrawlEnv) (ex0 : List String) (fuel : ℕ)
    (st : CState) (h : DedupInv env ex0 st) :
    DedupInv env ex0 (crawlLoop env fuel st) := by
  induction fuel generalizing st with
  | zero => exact h
  | succ n ih =>
    unfold crawlLoop
    split
    · exact ih _ (crawlStep_dedup env ex0 st h)
    · exact h

/-! ## Claim theorems -/

/-- C10: for every URL and parsed document, the record returned by
`scrape_perfume_page` has `rating = None` iff `votes = None`: both
values come from the single `RATING_VOTES_RE` match, so no record
carries a rating without a vote count or vice versa. -/
theorem c10_rating_votes_together (urlBrand urlName : Option String)
    (doc : PerfumeDoc) :
    (scrape_perfume_page urlBrand urlName doc).rating = none ↔
    (scrape_perfume_page urlBrand urlName doc).votes = none := by
  cases h : doc.ratingVotes with
  | none => simp [scrape_perfume_page, parse_rating_votes_from_text, h]
  | some rv => simp [scrape_perfume_page, parse_rating_votes_from_text, h]

/-- C8: a fetched detail page whose record misses rating or votes is not
persisted and its URL is not added to the known-URL set, on both the
frontier crawl path and the brand-scrape path, so the URL stays
eligible for a later run. -/
theorem c8_partial_record_not_persisted (env : CrawlEnv) (st : CState)
    (url : String) (rest : List String) (f : String → SFetch) (ss : ℤ) (bs : ℚ)
    (u2 : String) (rem : ℕ) (st2 : SState)
    (hq : st.queue = url :: rest)
    (hmiss : (env.fetch url).data.rating = none ∨ (env.fetch url).data.votes = none)
    (hmiss2 : (f u2).data.rating = none ∨ (f u2).data.votes = none) :
    ((crawlStep env st).rows = st.rows ∧ (crawlStep env st).existing = st.existing) ∧
    ((simpleStep f ss bs u2 rem st2).rows = st2.rows ∧
      (simpleStep f ss bs u2 rem st2).existing = st2.existing) := by
  constructor
  · obtain ⟨q, seen, ex, rows, pp, ssb, fl, el, bl, rot⟩ := st
    simp only at hq
    subst hq
    show ((crawlStep env ⟨url :: rest, seen, ex, rows, pp, ssb, fl, el, bl, rot⟩).rows = rows ∧ _)
    unfold crawlStep
    simp only
    split
    · exact ⟨rfl, rfl⟩
    split
    · exact ⟨rfl, rfl⟩
    split
    · exact ⟨rfl, rfl⟩
    · exact crawlSuccessTail_of_missing env url (env.fetch url) _ hmiss
  · unfold simpleStep
    simp only
    split_ifs <;> simp_all

/-- A record with brand and name but no rating/votes yet, as scraped
from a freshly-listed detail page. -/
def partialData : PageData :=
  { brand := some "Brand", name := some "Name", rating := none, votes := none,
    sex := "", category := "" }

/-- Crawl environment whose transport yields a partial record for every
URL (all pages permitted by robots, all URLs detail-shaped). -/
def c8wEnv : CrawlEnv :=
  { robots := fun _ => true, isPerfume := fun _ => true,
    fetch := fun u => { ok := true, finalUrl := u, data := partialData, links := [] },
    brandFilter := none, linkBrandOk := fun _ => true,
    sessionSize := 0, maxPages := 0, breakSeconds := 0 }

/-- A crawl state about to process the single frontier URL `"u"`. -/
def c8wSt : CState :=
  { queue := ["u"], seen := ["u"], existing := [], rows := [],
    pagesProcessed := 0, savedSinceBreak := 0, fetchedLog := [],
    enqueueLog := ["u"], breakLog := [], breakRotations := 0 }

/-- Witness for C8 at a concrete partial-record fetch. -/
theorem c8_partial_record_not_persisted_witness :
    ((crawlStep c8wEnv c8wSt).rows = c8wSt.rows ∧
      (crawlStep c8wEnv c8wSt).existing = c8wSt.existing) ∧
    ((simpleStep (fun u => { ok := true, finalUrl := u, data := partialData })
        0 0 "u" 0 (simpleInit [] 0)).rows = (simpleInit [] 0).rows ∧
      (simpleStep (fun u => { ok := true, finalUrl := u, data := partialData })
        0 0 "u" 0 (simpleInit [] 0)).existing = (simpleInit [] 0).existing) :=
  c8_partial_record_not_persisted c8wEnv c8wSt "u" []
    (fun u => { ok := true, finalUrl := u, data := partialData }) 0 0 "u" 0
    (simpleInit [] 0) rfl (Or.inl rfl) (Or.inl rfl)

/-- C3 counterexample: on a 429/403 at attempt 1 with *no* proxy pool,
the frontier crawl loop sleeps `5 · 2^(1-1) = 5` seconds
(`crawler.py` line 699), not the `30 · 2^(1-1) = 30` seconds the claim
requires for the no-pool case. -/
theorem c3_counterexample_no_pool_sleep :
    (crawl429Branch false false 1).sleep = 5 ∧
    (crawl429Branch false false 1).sleep ≠ 30 * 2 ^ (1 - 1) := by
  constructor <;>
    norm_num [crawl429Branch, crawlRateLimitSleep, MAX_RETRIES]

/-- C3 (amended): on a 429/403 with attempts remaining, both paths
record a failure against the active proxy and, when a pool exists,
force rotation and sleep `5·2^(attempt-1)`; with no pool neither path
rotates, but only the brand-scrape path sleeps `30·2^(attempt-1)` (and
records no failure) while the frontier crawl path sleeps
`5·2^(attempt-1)`; with no attempts remaining both give up. -/
theorem c3_rate_limit_handler (hp hcp : Bool) (a : ℕ) :
    (a < MAX_RETRIES →
      crawl429Branch hp hcp a =
        { sleep := 5 * 2 ^ (a - 1), rotated := hp, recordedFailure := hcp,
          gaveUp := false }) ∧
    (a < MAX_RETRIES → hp = true →
      simple429Branch hp hcp a =
        { sleep := 5 * 2 ^ (a - 1), rotated := true, recordedFailure := hcp,
          gaveUp := false }) ∧
    (a < MAX_RETRIES → hp = false →
      simple429Branch hp hcp a =
        { sleep := 30 * 2 ^ (a - 1), rotated := false, recordedFailure := false,
          gaveUp := false }) ∧
    (MAX_RETRIES ≤ a →
      (crawl429Branch hp hcp a).gaveUp = true ∧
      (simple429Branch hp hcp a).gaveUp = true) := by
  refine ⟨?_, ?_, ?_, ?_⟩
  · intro h
    unfold crawl429Branch crawlRateLimitSleep
    rw [if_pos h]
  · intro h hpool
    unfold simple429Branch
    rw [if_pos ⟨h, hpool⟩]
  · intro h hpool
    unfold simple429Branch
    rw [if_neg (by simp [hpool]), if_pos h]
  · intro h
    unfold crawl429Branch simple429Branch
    rw [if_neg (by omega), if_neg (by simp; omega), if_neg (by omega)]
    exact ⟨rfl, rfl⟩

/-- Witness for C3 (amended) at concrete attempts 1 and 3. -/
theorem c3_rate_limit_handler_witness :
    crawl429Branch true true 1 =
      { sleep := 5 * 2 ^ (1 - 1), rotated := true, recordedFailure := true,
        gaveUp := false } ∧
    simple429Branch false true 2 =
      { sleep := 30 * 2 ^ (2 - 1), rotated := false, recordedFailure := false,
        gaveUp := false } ∧
    (crawl429Branch true true 3).gaveUp = true :=
  ⟨(c3_rate_limit_handler true true 1).1 (by decide),
   (c3_rate_limit_handler false true 2).2.2.1 (by decide) rfl,
   ((c3_rate_limit_handler true true 3).2.2.2 (by decide)).1⟩

/-- A complete record (brand, name, rating, votes all present). -/
def fullData : PageData :=
  { brand := some "Brand", name := some "Name", rating := some 4,
    votes := some 100, sex := "", category := "" }

/-- A transport whose every fetch succeeds without redirecting and
yields a complete record. -/
def okFetch : String → SFetch :=
  fun u => { ok := true, finalUrl := u, data := fullData }

/-- C9 counterexample: a brand-scrape run (`_scrape_brand_simple`, the
path the multi-brand loop of `main.py` drives) whose session break
fires sleeps *exactly* `args.session_break_seconds` (`crawler.py` line
392, a plain `time.sleep`), so its duration interval `(900, 900)`
differs from the ±15%-jittered interval the claim requires. -/
theorem c9_counterexample_unjittered_break :
    (runBrand 1 900 { fetch := okFetch, urls := ["a", "b"], existing := [] } 0).breakLog
      = [(900, 900)] ∧
    (900, 900) ≠ session_sleep_range 900 (15 / 100) := by
  constructor
  · rfl
  · norm_num [session_sleep_range, Prod.ext_iff]

/-- C9 (amended): every session break of the frontier crawl path sleeps
the ±15%-jittered interval `session_sleep_range breakSeconds 0.15` and
comes with exactly one identity rotation (the break/rotation counts
stay in lock-step); every session break of the brand-scrape path
sleeps exactly the configured duration with no jitter, again with
exactly one identity rotation per break; the saved-since-break counter
is carried in, and a carried count already at `session_size` triggers
the cooldown (with counter reset and an identity rotation) at the next
successfully fetched URL with work remaining, so the cadence is
global; the multi-brand loop threads each invocation's final counter
into the next. -/
theorem c9_session_cooldown (env : CrawlEnv) (fuel : ℕ) (st0 : CState)
    (f : String → SFetch) (ss : ℤ) (bs : ℚ) (urls : List String) (st1 : SState)
    (f2 : String → SFetch) (ss2 : ℤ) (bs2 : ℚ) (url2 : String) (rem : ℕ)
    (st3 : SState) (ss4 : ℤ) (bs4 : ℚ) (j : BrandJob) (jobs : List BrandJob)
    (c : ℕ)
    (hok : (f2 url2).ok = true) (hss : 0 < ss2)
    (hdue : ss2 ≤ (st3.savedSinceBreak : ℤ)) (hrem : 0 < rem) :
    (∀ b ∈ (crawlLoop env fuel st0).breakLog,
      b ∈ st0.breakLog ∨ b = session_sleep_range env.breakSeconds (15 / 100)) ∧
    ((crawlLoop env fuel st0).breakLog.length + st0.breakRotations =
      (crawlLoop env fuel st0).breakRotations + st0.breakLog.length) ∧
    (∀ b ∈ (simpleRun f ss bs urls st1).breakLog,
      b ∈ st1.breakLog ∨ b = (bs, bs)) ∧
    ((simpleRun f ss bs urls st1).breakLog.length + st1.breakRotations =
      (simpleRun f ss bs urls st1).breakRotations + st1.breakLog.length) ∧
    ((simpleStep f2 ss2 bs2 url2 rem st3).breakLog = st3.breakLog ++ [(bs2, bs2)] ∧
      (simpleStep f2 ss2 bs2 url2 rem st3).savedSinceBreak = 0 ∧
      (simpleStep f2 ss2 bs2 url2 rem st3).breakRotations =
        st3.breakRotations + 1) ∧
    multiBrandCounter ss4 bs4 (j :: jobs) c =
      multiBrandCounter ss4 bs4 jobs ((runBrand ss4 bs4 j c).savedSinceBreak) := by
  refine ⟨fun b hb => crawlLoop_breakLog env fuel st0 b hb,
          crawlLoop_breakRotations env fuel st0,
          fun b hb => simpleRun_breakLog f ss bs urls st1 b hb,
          simpleRun_breakRotations f ss bs urls st1, ?_, rfl⟩
  unfold simpleStep
  simp only [hok]
  split_ifs with h1 h2 h3 h4 h5 <;> simp_all
  push_cast at *
  omega

/-- Witness for C9 (amended) at a concrete two-URL brand run with a
carried-in counter already at the session size. -/
theorem c9_session_cooldown_witness :
    (∀ b ∈ (crawlLoop c8wEnv 1 c8wSt).breakLog,
      b ∈ c8wSt.breakLog ∨ b = session_sleep_range c8wEnv.breakSeconds (15 / 100)) ∧
    ((crawlLoop c8wEnv 1 c8wSt).breakLog.length + c8wSt.breakRotations =
      (crawlLoop c8wEnv 1 c8wSt).breakRotations + c8wSt.breakLog.length) ∧
    (∀ b ∈ (simpleRun okFetch 1 900 ["a", "b"] (simpleInit [] 0)).breakLog,
      b ∈ (simpleInit [] 0).breakLog ∨ b = ((900 : ℚ), (900 : ℚ))) ∧
    ((simpleRun okFetch 1 900 ["a", "b"] (simpleInit [] 0)).breakLog.length +
        (simpleInit [] 0).breakRotations =
      (simpleRun okFetch 1 900 ["a", "b"] (simpleInit [] 0)).breakRotations +
        (simpleInit [] 0).breakLog.length) ∧
    ((simpleStep okFetch 2 600 "a" 1 (simpleInit [] 2)).breakLog =
        (simpleInit [] 2).breakLog ++ [(600, 600)] ∧
      (simpleStep okFetch 2 600 "a" 1 (simpleInit [] 2)).savedSinceBreak = 0 ∧
      (simpleStep okFetch 2 600 "a" 1 (simpleInit [] 2)).breakRotations =
        (simpleInit [] 2).breakRotations + 1) ∧
    multiBrandCounter 1 900 [{ fetch := okFetch, urls := ["a"], existing := [] }] 0 =
      multiBrandCounter 1 900 []
        ((runBrand 1 900 { fetch := okFetch, urls := ["a"], existing := [] } 0).savedSinceBreak) :=
  c9_session_cooldown c8wEnv 1 c8wSt okFetch 1 900 ["a", "b"] (simpleInit [] 0)
    okFetch 2 600 "a" 1 (simpleInit [] 2) 1 900
    { fetch := okFetch, urls := ["a"], existing := [] } [] 0
    rfl (by decide) (by decide) (by decide)

/-- A detail-page URL with the canonical `www.` host. -/
def caseUrlA : PyUrl :=
  { scheme := "https", netloc := "www.fragrantica.com",
    path := "/perfume/Chanel/Chance-21.html", params := "", query := "",
    fragment := "" }

/-- The same URL with the host upper-cased: a pure letter-casing
variant of `caseUrlA`. -/
def caseUrlB : PyUrl := { caseUrlA with netloc := "WWW.FRAGRANTICA.COM" }

/-- C5 counterexample: `caseUrlA` and `caseUrlB` differ only in host
letter-casing, yet `normalize_url` maps them to different canonical
forms — the replacement at `network.py` line 161 only fires when the
lower-cased netloc *starts with* `"fragrantica.com"`, which a
`www.`-prefixed host never does, so its casing is preserved. -/
theorem c5_counterexample_host_casing :
    (caseUrlA.scheme = caseUrlB.scheme ∧ caseUrlA.path = caseUrlB.path ∧
      caseUrlA.params = caseUrlB.params ∧ caseUrlA.query = caseUrlB.query ∧
      caseUrlA.fragment = caseUrlB.fragment ∧
      strLower caseUrlA.netloc = strLower caseUrlB.netloc) ∧
    normalize_url caseUrlA ≠ normalize_url caseUrlB := by
  exact ⟨⟨rfl, rfl, rfl, rfl, rfl, by decide⟩, by decide⟩

/-- C5 (amended): normalization is invariant under fragment changes,
and under host letter-casing only when the lower-cased host starts with
`"fragrantica.com"` (the bare domain, which gets rewritten to `DOMAIN`);
`www.`-prefixed hosts keep their casing, so two casing variants of the
canonical host normalize to distinct strings. The frontier still never
enqueues the same normalized string twice: with duplicate-free seeds
the enqueue log of a crawl run is duplicate-free. -/
theorem c5_normalization (u : PyUrl) (f1 f2 : String) (u1 u2 : PyUrl)
    (env : CrawlEnv) (fuel : ℕ) (seeds existing : List String) (c : ℕ)
    (hs : u1.scheme = u2.scheme) (hp : u1.path = u2.path)
    (hpar : u1.params = u2.params) (hq : u1.query = u2.query)
    (hlow : strLower u1.netloc = strLower u2.netloc)
    (hdom : chStartsWith (strLower u1.netloc) "fragrantica.com" = true)
    (hseeds : seeds.Nodup) :
    normalize_url { u with fragment := f1 } = normalize_url { u with fragment := f2 } ∧
    normalize_url u1 = normalize_url u2 ∧
    (crawlLoop env fuel (initState seeds existing c)).enqueueLog.Nodup := by
  refine ⟨?_, ?_, ?_⟩
  · unfold normalize_url
    split_ifs <;> rfl
  · cases u1 with
    | mk s1 n1 p1 pr1 q1 fr1 =>
      cases u2 with
      | mk s2 n2 p2 pr2 q2 fr2 =>
        simp only at hs hp hpar hq hlow hdom
        subst hs hp hpar hq
        have hdom2 : chStartsWith (strLower n2) "fragrantica.com" = true :=
          hlow ▸ hdom
        unfold normalize_url
        split_ifs <;> simp_all
  · exact (crawlLoop_enq env fuel (initState seeds existing c)
      ⟨hseeds, fun u hu => hu⟩).1

/-- Witness for C5 (amended) at concrete casing variants of the bare
domain and a one-seed crawl. -/
theorem c5_normalization_witness :
    normalize_url { caseUrlA with fragment := "top" } =
      normalize_url { caseUrlA with fragment := "" } ∧
    normalize_url { caseUrlA with netloc := "FRAGRANTICA.COM" } =
      normalize_url { caseUrlA with netloc := "Fragrantica.Com", fragment := "z" } ∧
    (crawlLoop c8wEnv 1 (initState ["s"] [] 0)).enqueueLog.Nodup :=
  c5_normalization caseUrlA "top" ""
    { caseUrlA with netloc := "FRAGRANTICA.COM" }
    { caseUrlA with netloc := "Fragrantica.Com", fragment := "z" }
    c8wEnv 1 ["s"] [] 0 rfl rfl rfl rfl (by decide) (by decide) (by decide)

/-- The most restrictive robots policy: everything disallowed. -/
def denyAllRobots : String → Bool := fun _ => false

/-- C6 counterexample: the brand-scrape path (`_scrape_brand_simple`,
`crawler.py` lines 106-453) contains no robots consultation at all —
its behaviour does not depend on any robots policy — so under the
policy that disallows every URL it still fetches `"v"`. -/
theorem c6_counterexample_simple_path_ignores_robots :
    denyAllRobots "v" = false ∧
    (simpleRun okFetch 0 0 ["v"] (simpleInit [] 0)).fetchedLog = ["v"] :=
  ⟨rfl, rfl⟩

/-- C6 (amended): on the frontier crawl path every URL passed to the
transport was allowed by the robots policy for the current user-agent,
and a robots-disallowed URL is dropped by a step that changes nothing
but popping the queue (no fetch, no attempt, no proxy-failure, no
counter); the brand-scrape path, however, never consults robots. -/
theorem c6_robots_gate (env : CrawlEnv) (fuel : ℕ) (seeds existing : List String)
    (c : ℕ) (st : CState) (url : String) (rest : List String)
    (hq : st.queue = url :: rest) (hrob : env.robots url = false) :
    (∀ u ∈ (crawlLoop env fuel (initState seeds existing c)).fetchedLog,
      env.robots u = true) ∧
    crawlStep env st = { st with queue := rest } := by
  constructor
  · exact crawlLoop_robots env fuel (initState seeds existing c)
      (fun u hu => absurd hu (List.not_mem_nil u))
  · obtain ⟨q, seen, ex, rows, pp, ssb, fl, el, bl, rot⟩ := st
    simp only at hq
    subst hq
    unfold crawlStep
    simp only
    rw [if_pos hrob]

/-- Witness for C6 (amended) at a concrete one-URL crawl whose robots
policy denies everything. -/
theorem c6_robots_gate_witness :
    (∀ u ∈ (crawlLoop
        { c8wEnv with robots := denyAllRobots } 1 (initState ["v"] [] 0)).fetchedLog,
      ({ c8wEnv with robots := denyAllRobots } : CrawlEnv).robots u = true) ∧
    crawlStep { c8wEnv with robots := denyAllRobots }
        (initState ["v"] [] 0) =
      { (initState ["v"] [] 0) with queue := [] } :=
  c6_robots_gate { c8wEnv with robots := denyAllRobots } 1 ["v"] [] 0
    (initState ["v"] [] 0) "v" [] rfl rfl

/-- An 85-character category capture: grammatically broken, rejected by
the 80-character sanity bound. -/
def longCat : String := String.mk (List.replicate 85 (Char.ofNat 97))

/-- A meta-description text whose *first* `CATEGORY_SEX_RE` match has
the over-long category and whose *second* match is acceptable — e.g.
"X is a ⟨85 chars⟩ fragrance for women. Also it is a Woody fragrance
for men."; neither sentence matches `SEX_ONLY_RE`. -/
def c7meta : TText :=
  { hasFragranceFor := true,
    full := [(longCat, "women"), ("Woody", "men")], sexOnly := none }

/-- C7 counterexample: tier 1 contains a full category+audience
sentence whose category passes the bound (("Woody", "men")), yet
extraction returns nothing: `re.search` in tiers 1-2 only surfaces the
*first* match of a text (`parsing.py` lines 119-121), and meta content
never reaches the tier-3 `findall` over the visible page text, so the
acceptable second sentence is lost entirely. -/
theorem c7_counterexample_meta_first_match :
    parse_category_and_sex [c7meta] [] ⟨false, [], none⟩ = (none, none) ∧
    ("Woody", "men") ∈ c7meta.full ∧
    "Woody".length ≤ 80 ∧ 80 < longCat.length := by
  refine ⟨by decide, by decide, by decide, by decide⟩

/-- C7 (amended): extraction returns a category+audience pair iff some
tier yields one *under the code's search discipline* — the first
`CATEGORY_SEX_RE` match of a tier-1 text, the first match of a tier-2
text containing "fragrance for", or any match of the tier-3 page text
— passing the 80-character bound; the earliest such tier wins: a
tier-1 acceptance is returned outright, a tier-2 acceptance pre-empts
any tier-3 page-text match, and the tier-3 match is returned when
tiers 1-2 yield nothing; an audience-only result is returned only when
no tier yields such an acceptable match. A tier text whose first full
match is over-long can hide a later acceptable match in that same text
from tiers 1-2. -/
theorem c7_fallback_ordering (m1 b1 : List TText) (p1 : TText)
    (m2 b2 : List TText) (p2 : TText) (c s : String) (fb : Option String)
    (m3 b3 : List TText) (p3 : TText) (c2 s2 : String) (fb3 fb4 : Option String)
    (m4 b4 : List TText) (p4 : TText) (c3 s3 : String) (fb5 fb6 : Option String)
    (hm : metaLoop m2 none = (some (c, s), fb))
    (hm3 : metaLoop m3 none = (none, fb3))
    (hb3 : blockLoop b3 fb3 = (some (c2, s2), fb4))
    (hm4 : metaLoop m4 none = (none, fb5))
    (hb4 : blockLoop b4 fb5 = (none, fb6))
    (hp4 : pageAccepted p4 = some (c3, s3)) :
    ((parse_category_and_sex m1 b1 p1).1.isSome = true ↔
      ((∃ t ∈ m1, (acceptFull t).isSome = true) ∨
        (∃ t ∈ b1, t.hasFragranceFor = true ∧ (acceptFull t).isSome = true) ∨
        (pageAccepted p1).isSome = true)) ∧
    parse_category_and_sex m2 b2 p2 = (some c, some s) ∧
    parse_category_and_sex m3 b3 p3 = (some c2, some s2) ∧
    parse_category_and_sex m4 b4 p4 = (some c3, some s3) ∧
    ((parse_category_and_sex m1 b1 p1).1 = none →
      ¬((∃ t ∈ m1, (acceptFull t).isSome = true) ∨
        (∃ t ∈ b1, t.hasFragranceFor = true ∧ (acceptFull t).isSome = true) ∨
        (pageAccepted p1).isSome = true)) := by
  have hC : (parse_category_and_sex m1 b1 p1).1.isSome = true ↔
      ((∃ t ∈ m1, (acceptFull t).isSome = true) ∨
        (∃ t ∈ b1, t.hasFragranceFor = true ∧ (acceptFull t).isSome = true) ∨
        (pageAccepted p1).isSome = true) := by
    unfold parse_category_and_sex
    rcases hm1 : metaLoop m1 none with ⟨mo, f1⟩
    cases mo with
    | some cs =>
      obtain ⟨c1, s1⟩ := cs
      dsimp only
      refine iff_of_true rfl (Or.inl ?_)
      rw [← metaLoop_isSome_iff m1 none, hm1]
      rfl
    | none =>
      dsimp only
      rcases hb1 : blockLoop b1 f1 with ⟨bo, f2⟩
      cases bo with
      | some cs =>
        obtain ⟨c1, s1⟩ := cs
        dsimp only
        refine iff_of_true rfl (Or.inr (Or.inl ?_))
        rw [← blockLoop_isSome_iff b1 f1, hb1]
        rfl
      | none =>
        dsimp only
        cases hpa : pageAccepted p1 with
        | some cs =>
          obtain ⟨c1, s1⟩ := cs
          dsimp only
          exact iff_of_true rfl (Or.inr (Or.inr rfl))
        | none =>
          dsimp only
          refine iff_of_false (by simp) ?_
          rintro (h | h | h)
          · have hml := (metaLoop_isSome_iff m1 none).mpr h
            rw [hm1] at hml
            simp at hml
          · have hbl := (blockLoop_isSome_iff b1 f1).mpr h
            rw [hb1] at hbl
            simp at hbl
          · simp at h
  refine ⟨hC, ?_, ?_, ?_, fun hnone => by
    rw [← hC]
    simp [hnone]⟩
  · unfold parse_category_and_sex
    rw [hm]
  · unfold parse_category_and_sex
    rw [hm3]
    dsimp only
    rw [hb3]
  · unfold parse_category_and_sex
    rw [hm4]
    dsimp only
    rw [hb4]
    dsimp only
    rw [hp4]

/-- Witness for C7 (amended) at concrete documents: a meta-text
acceptance, a block acceptance pre-empting a page-text match, and a
pure page-text acceptance. -/
theorem c7_fallback_ordering_witness :
    ((parse_category_and_sex [] [] ⟨false, [], none⟩).1.isSome = true ↔
      ((∃ t ∈ ([] : List TText), (acceptFull t).isSome = true) ∨
        (∃ t ∈ ([] : List TText),
          t.hasFragranceFor = true ∧ (acceptFull t).isSome = true) ∨
        (pageAccepted ⟨false, [], none⟩).isSome = true)) ∧
    parse_category_and_sex [⟨true, [("Woody", "men")], none⟩] [] ⟨false, [], none⟩ =
      (some "Woody", some "men") ∧
    parse_category_and_sex [] [⟨true, [("Woody", "men")], none⟩]
      ⟨true, [("Citrus", "women")], none⟩ = (some "Woody", some "men") ∧
    parse_category_and_sex [] [] ⟨true, [("Citrus", "women")], none⟩ =
      (some "Citrus", some "women") ∧
    ((parse_category_and_sex [] [] ⟨false, [], none⟩).1 = none →
      ¬((∃ t ∈ ([] : List TText), (acceptFull t).isSome = true) ∨
        (∃ t ∈ ([] : List TText),
          t.hasFragranceFor = true ∧ (acceptFull t).isSome = true) ∨
        (pageAccepted ⟨false, [], none⟩).isSome = true)) :=
  c7_fallback_ordering [] [] ⟨false, [], none⟩
    [⟨true, [("Woody", "men")], none⟩] [] ⟨false, [], none⟩ "Woody" "men" none
    [] [⟨true, [("Woody", "men")], none⟩] ⟨true, [("Citrus", "women")], none⟩
    "Woody" "men" none none
    [] [] ⟨true, [("Citrus", "women")], none⟩ "Citrus" "women" none none
    (by decide) (by decide) (by decide) (by decide) (by decide) (by decide)

/-- Attempt outcomes exhibiting the Retry-After inversion: a 503 whose
`Retry-After` header says 100 seconds, then a 503 without the header,
then success. -/
def c1outs : ℕ → COutcome :=
  fun k =>
    match k with
    | 0 => COutcome.serverErr (some 100)
    | 1 => COutcome.serverErr none
    | _ => COutcome.ok

/-- C1 counterexample: within the single 5xx failure class, honouring a
numeric `Retry-After` (`network.py` lines 245-249) makes the scheduled
sleeps non-monototonic: the attempt-1 sleep is exactly 100 s, while the
attempt-2 sleep is at most `5·2 + 1.5 = 11.5` s — every possible
attempt-2 draw is below every possible attempt-1 draw. -/
theorem c1_counterexample_retry_after :
    (frun true 5 c1outs 2).sleeps = [(100, 100), (10, 23 / 2)] ∧
    ((frun true 5 c1outs 2).sleeps.getD 1 (0, 0)).2 <
      ((frun true 5 c1outs 2).sleeps.getD 0 (0, 0)).1 := by
  have h : (frun true 5 c1outs 2).sleeps = [(100, 100), (10, 23 / 2)] := by
    show (fstep true 5 c1outs (fstep true 5 c1outs floopInit)).sleeps = _
    norm_num [fstep, floopInit, c1outs, backoff_sleep_range, MAX_RETRIES]
  refine ⟨h, ?_⟩
  rw [h]
  norm_num [List.getD]

/-- C1 (amended): both retry loops — the frontier crawl loop and the
brand-scrape loop of `_scrape_brand_simple` — make at most 3 fetch
attempts per URL under any outcome sequence; and within each failure
branch the scheduled backoff is monotonically non-decreasing in the
attempt number — `2·a` for proxy/connection errors on either path,
`5·2^(a-1)` for 429/403 (with a pool, on either path), `30·2^(a-1)`
for a brand-path 429/403 without a pool, `5·a` for brand-path
catch-all exceptions, and the `base·2^(a-1)` lower edge for frontier
other request exceptions and for 5xx responses *without* a numeric
`Retry-After` header. Only the frontier 5xx branch with a numeric
`Retry-After` violates monotonicity (it overrides the schedule and can
fall below an earlier attempt's sleep). -/
theorem c1_retry_bound (hp : Bool) (base : ℚ) (outs : ℕ → COutcome) (n : ℕ)
    (hp2 : Bool) (outs2 : ℕ → COutcome) (n2 : ℕ)
    (a b : ℕ) (hab : a ≤ b) (hbase : 0 ≤ base) :
    (frun hp base outs n).fetches ≤ 3 ∧
    (sfrun hp2 outs2 n2).fetches ≤ 3 ∧
    transportSleep a ≤ transportSleep b ∧
    crawlRateLimitSleep a ≤ crawlRateLimitSleep b ∧
    noPoolRateLimitSleep a ≤ noPoolRateLimitSleep b ∧
    simpleOtherExcSleep a ≤ simpleOtherExcSleep b ∧
    (backoff_sleep_range none base a).1 ≤ (backoff_sleep_range none base b).1 := by
  have hpow : (2 : ℚ) ^ (a - 1) ≤ 2 ^ (b - 1) :=
    pow_le_pow_right₀ one_le_two (Nat.sub_le_sub_right hab 1)
  have hcast : (a : ℚ) ≤ b := Nat.cast_le.mpr hab
  refine ⟨frun_fetches_le hp base outs n, sfrun_fetches_le hp2 outs2 n2,
    ?_, ?_, ?_, ?_, ?_⟩
  · unfold transportSleep
    linarith
  · unfold crawlRateLimitSleep
    have h5 : (0 : ℚ) ≤ 5 := by norm_num
    exact mul_le_mul_of_nonneg_left hpow h5
  · unfold noPoolRateLimitSleep
    have h30 : (0 : ℚ) ≤ 30 := by norm_num
    exact mul_le_mul_of_nonneg_left hpow h30
  · unfold simpleOtherExcSleep
    linarith
  · unfold backoff_sleep_range
    exact mul_le_mul_of_nonneg_left hpow hbase

/-- Witness for C1 (amended) at concrete outcome sequences and an
attempt pair. -/
theorem c1_retry_bound_witness :
    (frun true 5 c1outs 5).fetches ≤ 3 ∧
    (sfrun false c1outs 5).fetches ≤ 3 ∧
    transportSleep 1 ≤ transportSleep 2 ∧
    crawlRateLimitSleep 1 ≤ crawlRateLimitSleep 2 ∧
    noPoolRateLimitSleep 1 ≤ noPoolRateLimitSleep 2 ∧
    simpleOtherExcSleep 1 ≤ simpleOtherExcSleep 2 ∧
    (backoff_sleep_range none 5 1).1 ≤ (backoff_sleep_range none 5 2).1 :=
  c1_retry_bound true 5 c1outs 5 false c1outs 5 1 2 (by norm_num) (by norm_num)

/-- C2: when every configured proxy has failure count ≥ 3, the very
next `get_next_proxy` call — whose scan is bounded by construction to
`2 × len(proxies)` examinations — clears all failure counters and
returns the next round-robin proxy from the list; when some proxy has
failure count < 3, the call returns the first candidate in round-robin
order (from the cursor) with failure count < 3, leaving the failure
map untouched. -/
theorem c2_proxy_selection (s : ProxyState) (hne : s.proxies ≠ [])
    (hidx : s.proxyIndex < s.proxies.length) :
    ((∀ p ∈ s.proxies, 3 ≤ s.failures p) →
      get_next_proxy s =
        (some (s.proxies.getD ((s.proxyIndex + 1) % s.proxies.length) ""),
         { s with failures := fun _ => 0,
                  proxyIndex := (s.proxyIndex + 1) % s.proxies.length }) ∧
      s.proxies.getD ((s.proxyIndex + 1) % s.proxies.length) "" ∈ s.proxies) ∧
    ((∃ p ∈ s.proxies, s.failures p < 3) →
      ∃ k, k < 2 * s.proxies.length ∧
        (∀ j < k,
          ¬ s.failures
              (s.proxies.getD ((s.proxyIndex + j + 1) % s.proxies.length) "") < 3) ∧
        s.failures
          (s.proxies.getD ((s.proxyIndex + k + 1) % s.proxies.length) "") < 3 ∧
        get_next_proxy s =
          (some (s.proxies.getD ((s.proxyIndex + k + 1) % s.proxies.length) ""),
           { s with proxyIndex := (s.proxyIndex + k + 1) % s.proxies.length })) := by
  have hn : 0 < s.proxies.length := List.length_pos.mpr hne
  constructor
  · intro hall
    have hloop := findProxyLoop_none s.proxies s.failures hall hn
      (2 * s.proxies.length) s.proxyIndex hidx
    have hmod : (s.proxyIndex + 2 * s.proxies.length) % s.proxies.length =
        s.proxyIndex := by
      rw [Nat.add_mul_mod_self_right]
      exact Nat.mod_eq_of_lt hidx
    rw [hmod] at hloop
    constructor
    · unfold get_next_proxy
      rw [if_neg (by omega), hloop]
    · exact getD_mem _ _ (Nat.mod_lt _ hn)
  · intro hsome
    obtain ⟨p, hp, hfp⟩ := hsome
    obtain ⟨i, hi, hpi⟩ := List.mem_iff_getElem.mp hp
    have hgoodi : s.failures (s.proxies.getD i "") < 3 := by
      rw [List.getD_eq_getElem?_getD, List.getElem?_eq_getElem hi]
      simpa [hpi] using hfp
    obtain ⟨k0, hk0, hoff⟩ := exists_offset s.proxies.length s.proxyIndex i hn hi
    have hex : ∃ k,
        s.failures
          (s.proxies.getD ((s.proxyIndex + k + 1) % s.proxies.length) "") < 3 :=
      ⟨k0, by rw [hoff]; exact hgoodi⟩
    have hkgood := Nat.find_spec hex
    have hkmin : ∀ j < Nat.find hex,
        ¬ s.failures
            (s.proxies.getD ((s.proxyIndex + j + 1) % s.proxies.length) "") < 3 :=
      fun j hj => Nat.find_min hex hj
    have hkle : Nat.find hex ≤ k0 := Nat.find_min' hex (by rw [hoff]; exact hgoodi)
    have hk2n : Nat.find hex < 2 * s.proxies.length := by omega
    refine ⟨Nat.find hex, hk2n, hkmin, hkgood, ?_⟩
    unfold get_next_proxy
    rw [if_neg (by omega),
      findProxyLoop_found s.proxies s.failures (2 * s.proxies.length) s.proxyIndex
        (Nat.find hex) hk2n hkmin hkgood]

/-- All-exhausted and one-healthy failure maps over a two-proxy pool. -/
def allBadFail : String → ℕ := fun _ => 3

/-- Failure map where only `"p2"` is healthy. -/
def oneGoodFail : String → ℕ := fun p => if p = "p2" then 0 else 3

/-- Witness for C2 at a concrete two-proxy state, exercising both the
all-exhausted recovery branch and the healthy-skip branch. -/
theorem c2_proxy_selection_witness :
    ((∀ p ∈ ["p1", "p2"], 3 ≤ allBadFail p) →
      get_next_proxy { proxies := ["p1", "p2"], proxyIndex := 0, failures := allBadFail } =
        (some ((["p1", "p2"] : List String).getD ((0 + 1) % (["p1", "p2"] : List String).length) ""),
         { proxies := ["p1", "p2"], proxyIndex := (0 + 1) % (["p1", "p2"] : List String).length,
           failures := fun _ => 0 }) ∧
      (["p1", "p2"] : List String).getD ((0 + 1) % (["p1", "p2"] : List String).length) ""
        ∈ ["p1", "p2"]) ∧
    ((∃ p ∈ ["p1", "p2"], oneGoodFail p < 3) →
      ∃ k, k < 2 * (["p1", "p2"] : List String).length ∧
        (∀ j < k,
          ¬ oneGoodFail
              ((["p1", "p2"] : List String).getD ((0 + j + 1) % (["p1", "p2"] : List String).length) "") < 3) ∧
        oneGoodFail
          ((["p1", "p2"] : List String).getD ((0 + k + 1) % (["p1", "p2"] : List String).length) "") < 3 ∧
        get_next_proxy { proxies := ["p1", "p2"], proxyIndex := 0, failures := oneGoodFail } =
          (some ((["p1", "p2"] : List String).getD ((0 + k + 1) % (["p1", "p2"] : List String).length) ""),
           { proxies := ["p1", "p2"], proxyIndex := (0 + k + 1) % (["p1", "p2"] : List String).length,
             failures := oneGoodFail })) :=
  ⟨(c2_proxy_selection { proxies := ["p1", "p2"], proxyIndex := 0, failures := allBadFail }
      (by simp) (by simp)).1,
   (c2_proxy_selection { proxies := ["p1", "p2"], proxyIndex := 0, failures := oneGoodFail }
      (by simp) (by simp)).2⟩

/-- A transport whose every fetch succeeds but redirects to the
already-stored URL `"u"`. -/
def dupFetch : String → SFetch :=
  fun _ => { ok := true, finalUrl := "u", data := fullData }

/-- C4 counterexample: in the brand-scrape path, the store already
contains `"u"`, the queued URL `"v"` is fresh (as the pre-filter
guarantees), yet the fetch of `"v"` redirects to `"u"`
(`crawler.py` lines 357-360) and the save block appends a row for `"u"`
without re-checking the store (lines 362-380) — a second Record for a
canonical URL already persisted. -/
theorem c4_counterexample_redirect_duplicate :
    (simpleInit ["u"] 0).existing = ["u"] ∧
    "v" ∉ (simpleInit ["u"] 0).existing ∧
    ((simpleRun dupFetch 0 0 ["v"] (simpleInit ["u"] 0)).rows.map Row.url) = ["u"] :=
  ⟨rfl, by decide, rfl⟩

/-- C4 (amended): on the frontier crawl path the claim holds — across a
run, row URLs are pairwise distinct, none was in the startup store, and
no detail-page URL from the startup store is ever fetched. On the
brand-scrape path, startup-store URLs are never queued (hence never
fetched: the fetch log is exactly the pre-filtered work list), and when
no fetch redirects (final URL = requested URL) row URLs are pairwise
distinct and none was in the startup store; a redirect onto an
already-known canonical URL, however, escapes the re-check (see the
counterexample). -/
theorem c4_idempotent_dedup (env : CrawlEnv) (seeds ex0 : List String) (c : ℕ)
    (fuel : ℕ) (f : String → SFetch) (ss : ℤ) (bs : ℚ)
    (cands ex1 : List String) (c1 : ℕ)
    (hred : ∀ u, (f u).finalUrl = u) :
    (((crawlLoop env fuel (initState seeds ex0 c)).rows.map Row.url).Nodup ∧
      (∀ r ∈ (crawlLoop env fuel (initState seeds ex0 c)).rows, r.url ∉ ex0) ∧
      (∀ u ∈ ex0, env.isPerfume u = true →
        u ∉ (crawlLoop env fuel (initState seeds ex0 c)).fetchedLog)) ∧
    ((simpleRun f ss bs (collectPerfumeUrls cands ex1) (simpleInit ex1 c1)).fetchedLog
        = collectPerfumeUrls cands ex1 ∧
      (∀ u ∈ collectPerfumeUrls cands ex1, u ∉ ex1) ∧
      ((simpleRun f ss bs (collectPerfumeUrls cands ex1)
          (simpleInit ex1 c1)).rows.map Row.url).Nodup ∧
      (∀ r ∈ (simpleRun f ss bs (collectPerfumeUrls cands ex1)
          (simpleInit ex1 c1)).rows, r.url ∉ ex1)) := by
  constructor
  · have hinv := crawlLoop_dedup env ex0 fuel (initState seeds ex0 c)
      ⟨fun u hu => hu, fun u hu => absurd hu (List.not_mem_nil u),
        by simp [initState], fun r hr => absurd hr (List.not_mem_nil r),
        fun r hr => absurd hr (List.not_mem_nil r)⟩
    obtain ⟨_, h2, h3, _, h5⟩ := hinv
    exact ⟨h3, h5, fun u hu hperf hlog => h2 u hlog ⟨hperf, hu⟩⟩
  · obtain ⟨hnd, hnotin⟩ := collectPerfumeUrls_spec cands ex1
    have hrun := simpleRun_dedup f ss bs hred (collectPerfumeUrls cands ex1)
      (simpleInit ex1 c1) hnd hnotin (by simp [simpleInit])
      (fun r hr => absurd hr (List.not_mem_nil r))
    refine ⟨?_, hnotin, hrun.1, fun r hr => ?_⟩
    · rw [simpleRun_fetchedLog]
      simp [simpleInit]
    · rcases hrun.2.2 r hr with hr2 | hr2
      · exact absurd hr2 (List.not_mem_nil r)
      · exact hnotin _ hr2

/-- Witness for C4 (amended) at a concrete store and candidate list. -/
theorem c4_idempotent_dedup_witness :
    (((crawlLoop c8wEnv 1 (initState ["s"] ["u"] 0)).rows.map Row.url).Nodup ∧
      (∀ r ∈ (crawlLoop c8wEnv 1 (initState ["s"] ["u"] 0)).rows, r.url ∉ ["u"]) ∧
      (∀ u ∈ (["u"] : List String), c8wEnv.isPerfume u = true →
        u ∉ (crawlLoop c8wEnv 1 (initState ["s"] ["u"] 0)).fetchedLog)) ∧
    ((simpleRun okFetch 0 0 (collectPerfumeUrls ["v", "u", "v"] ["u"])
        (simpleInit ["u"] 0)).fetchedLog = collectPerfumeUrls ["v", "u", "v"] ["u"] ∧
      (∀ u ∈ collectPerfumeUrls ["v", "u", "v"] ["u"], u ∉ ["u"]) ∧
      ((simpleRun okFetch 0 0 (collectPerfumeUrls ["v", "u", "v"] ["u"])
          (simpleInit ["u"] 0)).rows.map Row.url).Nodup ∧
      (∀ r ∈ (simpleRun okFetch 0 0 (collectPerfumeUrls ["v", "u", "v"] ["u"])
          (simpleInit ["u"] 0)).rows, r.url ∉ ["u"])) :=
  c4_idempotent_dedup c8wEnv ["s"] ["u"] 0 1 okFetch 0 0 ["v", "u", "v"] ["u"] 0
    (fun _ => rfl)

end FragScraper
